import Mathlib

/-!
Verification model of the defensive-lineup scheduling core of
`little-league-tool` (`src/lib/baseball-lineup-logic.svelte.ts`).

JavaScript objects (`Record<string, T>`) are modelled as association lists
over `String` with insertion-order semantics: lookup returns the first
binding, assignment updates an existing binding in place or appends a new
one at the end, `Object.assign` folds assignment over the source bindings.
`Math.random()`-driven index selection is modelled by an injected stream of
natural numbers, reduced modulo the eligible-list length; the orchestrator
receives a family of streams, one per attempt (plus one for the fallback
generator).  Player statistics are modelled as total functions defaulting
to zero, mirroring the zero-filled records the code builds up-front.
-/

namespace LLT

/-- JS object lookup: first binding wins. -/
def alookup {α : Type} (m : List (String × α)) (k : String) : Option α :=
  (m.find? (fun kv => kv.1 == k)).map (fun kv => kv.2)

/-- JS object assignment `m[k] = v`: replace an existing binding in place,
otherwise append the new binding at the end. -/
def objSet {α : Type} (m : List (String × α)) (k : String) (v : α) : List (String × α) :=
  if m.any (fun kv => kv.1 == k) then
    m.map (fun kv => if kv.1 == k then (k, v) else kv)
  else
    m ++ [(k, v)]

/-- JS `delete m[k]`. -/
def objDelete {α : Type} (m : List (String × α)) (k : String) : List (String × α) :=
  m.filter (fun kv => kv.1 != k)

/-- JS `Object.assign(dst, src)`: every binding of `src` overwrites `dst`. -/
def objAssign {α : Type} (dst src : List (String × α)) : List (String × α) :=
  src.foldl (fun d kv => objSet d kv.1 kv.2) dst

/-- The idiom `if (!m[k]) m[k] = []; m[k].push(x)` used on lineup rows. -/
def objPush (m : List (String × List String)) (k : String) (x : String) :
    List (String × List String) :=
  objSet m k (((alookup m k).getD []) ++ [x])

/-- Keys of a JS object (insertion order). -/
def objKeys {α : Type} (m : List (String × α)) : List String :=
  m.map (fun kv => kv.1)

/-- JS `String.prototype.trim`, modelled over the character list (the core
`String.trim` is byte-level and does not reduce in the kernel; the code only
ever distinguishes blank from non-blank after trimming). -/
def trimWS (s : String) : String :=
  ⟨((s.data.dropWhile Char.isWhitespace).reverse.dropWhile Char.isWhitespace).reverse⟩

/-- The mutable module-level state of `baseball-lineup-logic.svelte.ts`
relevant to scheduling (game metadata plays no role in any claim). -/
structure AppState where
  roster : List String
  battingOrder : List String
  generatedLineups : List (String × List String)
  playerCapabilities : List (String × List String)
  playerAttendance : List (String × Bool)

/-- `POSITIONS` constant. -/
def POSITIONS : List String :=
  ["Pitcher", "Catcher", "1st Base", "2nd Base", "3rd Base", "Shortstop",
   "Left Field", "Center Field", "Right Field"]

/-- `INNING_COUNT` constant. -/
def INNING_COUNT : Nat := 6

/-- `getInfieldPositions()`. -/
def getInfieldPositions : List String :=
  ["Pitcher", "Catcher", "1st Base", "2nd Base", "3rd Base", "Shortstop"]

/-- `isInfieldPosition(position)`. -/
def isInfieldPosition (position : String) : Bool :=
  getInfieldPositions.contains position

/-- `isPlayerAttending(player)`: `playerAttendance[player] !== false`
(absent means attending). -/
def isPlayerAttending (st : AppState) (player : String) : Bool :=
  ((alookup st.playerAttendance player).getD true)

/-- `getAttendingPlayers()`. -/
def getAttendingPlayers (st : AppState) : List String :=
  st.roster.filter (fun p => isPlayerAttending st p)

/-- `canPlayerPlayPosition(player, position)`:
`playerCapabilities[player]?.includes(position) || false`. -/
def canPlayerPlayPosition (st : AppState) (player position : String) : Bool :=
  ((alookup st.playerCapabilities player).getD []).contains position

/-- Transient per-player statistics (`PlayerStats`); the position-count
record is an association list like every other JS object here. -/
structure PlayerStats where
  positionCounts : List (String × Nat)
  infieldInnings : Nat
  benchInnings : Nat

/-- The all-zero statistics row the code creates for each player. -/
def statsZero : PlayerStats :=
  ⟨POSITIONS.map (fun position => (position, 0)), 0, 0⟩

/-- The statistics table the code builds up-front: one zero row per
attending player. -/
def statsInit (st : AppState) : List (String × PlayerStats) :=
  (getAttendingPlayers st).map (fun p => (p, statsZero))

/-- Row lookup in a statistics table (missing players read as an empty row;
the JS code only ever reads players it has initialised). -/
def statsFor (stats : List (String × PlayerStats)) (p : String) : PlayerStats :=
  (alookup stats p).getD ⟨[], 0, 0⟩

/-- `positionCounts[position]`, reading absent entries as zero. -/
def countFor (s : PlayerStats) (position : String) : Nat :=
  (alookup s.positionCounts position).getD 0

/-- `canPlayerPlayPositionInInning(player, position, playerStats)`: capability,
the 3-innings-per-position cap, and the two Pitcher/Catcher exclusions. -/
def canPlayerPlayPositionInInning (st : AppState) (player position : String)
    (playerStats : List (String × PlayerStats)) : Bool :=
  if ¬ canPlayerPlayPosition st player position then false
  else if 3 ≤ countFor (statsFor playerStats player) position then false
  else if position = "Pitcher" ∧ 4 ≤ countFor (statsFor playerStats player) "Catcher" then false
  else if position = "Catcher" ∧ 2 ≤ countFor (statsFor playerStats player) "Pitcher" then false
  else true

/-- Index of the last occurrence of `player` in a position row (the JS loop
keeps overwriting `lastInningPlayed`; `-1`, i.e. no occurrence, is `none`). -/
def lastIdxOf (row : List String) (player : String) : Option Nat :=
  ((row.enum.filter (fun e => e.2 == player)).getLast?).map (fun e => e.1)

/-- `canPlayerPlayPositionInSpecificInning(player, position, inning,
playerStats, lineups)`: the basic rules plus, for Pitcher/Catcher only, the
consecutive-assignment rule. -/
def canPlayerPlayPositionInSpecificInning (st : AppState) (player position : String)
    (inning : Nat) (playerStats : List (String × PlayerStats))
    (lineups : List (String × List String)) : Bool :=
  if ¬ canPlayerPlayPositionInInning st player position playerStats then false
  else if position = "Pitcher" ∨ position = "Catcher" then
    let positionLineup := (alookup lineups position).getD []
    let currentCount := countFor (statsFor playerStats player) position
    if currentCount = 0 then true
    else
      match lastIdxOf positionLineup player with
      | none => true
      | some lastInningPlayed => inning = lastInningPlayed + 1
  else true

/-- Bump one player's count for one position (and the infield tally when the
position is infield). -/
def bumpStats (stats : List (String × PlayerStats)) (player position : String) :
    List (String × PlayerStats) :=
  let s := statsFor stats player
  objSet stats player
    { positionCounts := objSet s.positionCounts position (countFor s position + 1),
      infieldInnings := s.infieldInnings + (if isInfieldPosition position then 1 else 0),
      benchInnings := s.benchInnings }

/-- Bump one player's bench-innings tally. -/
def bumpBench (stats : List (String × PlayerStats)) (player : String) :
    List (String × PlayerStats) :=
  let s := statsFor stats player
  objSet stats player
    { positionCounts := s.positionCounts,
      infieldInnings := s.infieldInnings,
      benchInnings := s.benchInnings + 1 }

/-- One inning of `calculatePlayerStats`: count the field positions (skipping
empty and non-attending entries) and then a bench inning for every attending
player not on the field. -/
def calcStatsInning (st : AppState) (lineups : List (String × List String))
    (stats : List (String × PlayerStats)) (inning : Nat) : List (String × PlayerStats) :=
  let step := POSITIONS.foldl
    (fun (acc : List (String × PlayerStats) × List String) position =>
      let player := ((alookup lineups position).getD []).getD inning ""
      if player ≠ "" ∧ isPlayerAttending st player then
        (bumpStats acc.1 player position, acc.2 ++ [player])
      else acc)
    (stats, [])
  (getAttendingPlayers st).foldl
    (fun acc player => if ¬ step.2.contains player then bumpBench acc player else acc)
    step.1

/-- `calculatePlayerStats(lineups)`: recomputed from scratch over the six
innings. -/
def calculatePlayerStats (st : AppState) (lineups : List (String × List String)) :
    List (String × PlayerStats) :=
  (List.range INNING_COUNT).foldl (calcStatsInning st lineups) (statsInit st)

/-- First-occurrence list of the (non-blank) players appearing in a position
row, as collected by `validateConsecutivePositionAssignments`. -/
def playersWhoPlayed (row : List String) : List String :=
  row.foldl
    (fun acc p => if p ≠ "" ∧ trimWS p ≠ "" ∧ ¬ acc.contains p then acc ++ [p] else acc)
    []

/-- All innings (0-based) in which `player` occupies an entry of `row`. -/
def inningsOf (row : List String) (player : String) : List Nat :=
  (row.enum.filter (fun e => e.2 == player)).map (fun e => e.1)

/-- The ascending-run check of `validateConsecutivePositionAssignments`. -/
def isConsecutiveRun : List Nat → Bool
  | [] => true
  | [_] => true
  | a :: b :: t => (b == a + 1) && isConsecutiveRun (b :: t)

/-- `validateConsecutivePositionAssignments(lineups, position)`. -/
def validateConsecutivePositionAssignments (lineups : List (String × List String))
    (position : String) : List String :=
  let row := (alookup lineups position).getD []
  (playersWhoPlayed row).filterMap (fun player =>
    let inningsPlayed := inningsOf row player
    if 1 < inningsPlayed.length then
      let sortedInnings := List.insertionSort (fun a b => a ≤ b) inningsPlayed
      if isConsecutiveRun sortedInnings then none
      else some (player ++ " played " ++ position ++ " in non-consecutive innings: " ++
        String.intercalate ", " (sortedInnings.map (fun i => toString (i + 1))))
    else none)

/-- Result type `LineupValidation`. -/
structure LineupValidation where
  isValid : Bool
  errors : List String

/-- The infield-minimum violations, in attending order. -/
def infieldErrors (st : AppState) (stats : List (String × PlayerStats)) : List String :=
  (getAttendingPlayers st).filterMap (fun player =>
    if (statsFor stats player).infieldInnings < 2 then
      some (player ++ " only played " ++ toString (statsFor stats player).infieldInnings ++
        " infield innings (minimum 2 required)")
    else none)

/-- The per-player bench tallies, in attending order. -/
def benchCounts (st : AppState) (stats : List (String × PlayerStats)) : List Nat :=
  (getAttendingPlayers st).map (fun player => (statsFor stats player).benchInnings)

/-- Maximum of a bench-tally list (`Math.max(...benchInnings)`); the empty
case never produces an error in the JS code (`-Infinity` comparison), so it
is split off below. -/
def natMaxOf (h : Nat) (t : List Nat) : Nat := t.foldl max h

/-- Minimum, same shape. -/
def natMinOf (h : Nat) (t : List Nat) : Nat := t.foldl min h

/-- The bench-fairness violation of `validateLineup` (rule 3). -/
def benchError (st : AppState) (stats : List (String × PlayerStats)) : List String :=
  match benchCounts st stats with
  | [] => []
  | h :: t =>
    if 1 < natMaxOf h t - natMinOf h t then
      ["Bench time difference too large: max " ++ toString (natMaxOf h t) ++ ", min " ++
        toString (natMinOf h t) ++ " (max difference allowed: 1)"]
    else []

/-- `validateLineup(lineups)`. -/
def validateLineup (st : AppState) (lineups : List (String × List String)) :
    LineupValidation :=
  let stats := calculatePlayerStats st lineups
  let errors := infieldErrors st stats ++ benchError st stats ++
    validateConsecutivePositionAssignments lineups "Pitcher" ++
    validateConsecutivePositionAssignments lineups "Catcher"
  ⟨errors.isEmpty, errors⟩

/-- `sittingPerInning = Math.max(0, attendingPlayers.length - 9)` (the `Nat`
subtraction is already clamped at zero). -/
def sittingPerInning (st : AppState) : Nat :=
  (getAttendingPlayers st).length - 9

/-- `targetSittingPerPlayer = floor(sittingPerInning * 6 / P)` (zero for an
empty attending list, as in the code's ternary). -/
def sitTarget (st : AppState) : Nat :=
  if 0 < (getAttendingPlayers st).length then
    sittingPerInning st * INNING_COUNT / (getAttendingPlayers st).length
  else 0

/-- `maxSittingPerPlayer = target + 1`. -/
def sitMaxPerPlayer (st : AppState) : Nat := sitTarget st + 1

/-- The sort key of the per-inning priority comparator: below-target players
first, then ascending current sitting count. -/
def sitKeyOf (counts : String → Nat) (target : Nat) (p : String) : Nat × Nat :=
  (if counts p < target then 0 else 1, counts p)

/-- The priority relation (lexicographic on the key); the JS engine's stable
sort with the code's comparator is modelled by Mathlib's (stable) insertion
sort under this relation. -/
def sitLE (counts : String → Nat) (target : Nat) (a b : String) : Prop :=
  (sitKeyOf counts target a).1 < (sitKeyOf counts target b).1 ∨
    ((sitKeyOf counts target a).1 = (sitKeyOf counts target b).1 ∧
      (sitKeyOf counts target a).2 ≤ (sitKeyOf counts target b).2)

instance (counts : String → Nat) (target : Nat) : DecidableRel (sitLE counts target) :=
  fun a b => by unfold sitLE; infer_instance

/-- `playersByPriority` then filtered to those strictly below the max. -/
def sitEligible (st : AppState) (counts : String → Nat) : List String :=
  (List.insertionSort (sitLE counts (sitTarget st)) (getAttendingPlayers st)).filter
    (fun p => counts p < sitMaxPerPlayer st)

/-- `needToReachTarget`: the eligible players still below the target. -/
def sitNeed (st : AppState) (counts : String → Nat) : List String :=
  (sitEligible st counts).filter (fun p => counts p < sitTarget st)

/-- One inning's sitting selection: as many below-target players as fit,
then other eligible players for the remaining slots. -/
def sitSelect (st : AppState) (counts : String → Nat) : List String :=
  let sel1 := (sitNeed st counts).take (min (sitNeed st counts).length (sittingPerInning st))
  let otherEligible := (sitEligible st counts).filter (fun p => ¬ sel1.contains p)
  sel1 ++ otherEligible.take (sittingPerInning st - sel1.length)

/-- `sittingThisInning.forEach(p => sittingCounts[p]++)`. -/
def bumpCounts (counts : String → Nat) (sel : List String) : String → Nat :=
  sel.foldl (fun c p => fun q => if q = p then c p + 1 else c q) counts

/-- State of the sitting distribution: the per-inning selections so far and
the running sitting counts. -/
structure SitS where
  sel : List (List String)
  counts : String → Nat

/-- One inning of `generateFairSittingAssignment`, including the
not-enough-eligible-players abort. -/
def sitStep (st : AppState) (s : SitS) : Option SitS :=
  if (sitEligible st s.counts).length < sittingPerInning st then none
  else some ⟨s.sel ++ [sitSelect st s.counts], bumpCounts s.counts (sitSelect st s.counts)⟩

/-- The abort-free run of the same per-inning selection (used to state when
the checked computation fails): counts and selections after `k` innings. -/
def sitRun (st : AppState) (k : Nat) : SitS :=
  (List.range k).foldl
    (fun s _ => ⟨s.sel ++ [sitSelect st s.counts], bumpCounts s.counts (sitSelect st s.counts)⟩)
    ⟨[], fun _ => 0⟩

/-- The checked fold of `sitStep` over the first `k` innings. -/
def sitChecked (st : AppState) (k : Nat) : Option SitS :=
  (List.range k).foldl (fun acc _ => acc.bind (sitStep st)) (some ⟨[], fun _ => 0⟩)

/-- Max-minus-min spread of a tally list; the empty case (JS `-Infinity`
arithmetic) never triggers the failure comparison and is rendered as zero. -/
def natSpread : List Nat → Nat
  | [] => 0
  | h :: t => natMaxOf h t - natMinOf h t

/-- `generateFairSittingAssignment()`: six checked innings, then the global
max-minus-min fairness gate over `Object.values(sittingCounts)`. -/
def generateFairSittingAssignment (st : AppState) : Option (List (List String)) :=
  (sitChecked st INNING_COUNT).bind (fun s =>
    if 1 < natSpread ((getAttendingPlayers st).map s.counts) then none
    else some s.sel)

/-- The per-inning abort condition of the checked run, phrased over the
sorted-and-filtered eligible list the code builds. -/
def sitShortAt (st : AppState) (i : Nat) : Prop :=
  (sitEligible st (sitRun st i).counts).length < sittingPerInning st

/-- Failure cause (a): in some inning, fewer players than `sittingPerInning`
still have a sitting count below the per-player max. -/
def sitShortage (st : AppState) : Prop :=
  ∃ i, i < INNING_COUNT ∧
    ((getAttendingPlayers st).filter
      (fun p => (sitRun st i).counts p < sitMaxPerPlayer st)).length < sittingPerInning st

/-- Failure cause (b): after all six innings the spread of sitting counts
exceeds one. -/
def sitUnfairSpread (st : AppState) : Prop :=
  1 < natSpread ((getAttendingPlayers st).map (sitRun st INNING_COUNT).counts)

/-- In-progress state of a position-assignment pass: the lineup rows, the
running stats, the players still available this inning, and the cursor into
the random stream. -/
structure GenS where
  L : List (String × List String)
  stats : List (String × PlayerStats)
  avail : List String
  idx : Nat

/-- The initial lineup object: every position bound to an empty row. -/
def posInit : List (String × List String) :=
  POSITIONS.map (fun position => (position, []))

/-- One position of `generateLineupsWithSittingAssignment`: filter the
available players through the full per-inning rule, abort the attempt when
none qualifies, otherwise pick pseudo-randomly, append, update stats and
remove the pick from this inning's availability. -/
def assignPos (st : AppState) (r : Nat → Nat) (inning : Nat) (s : GenS)
    (position : String) : Option GenS :=
  let eligible := s.avail.filter (fun p =>
    canPlayerPlayPositionInSpecificInning st p position inning s.stats s.L)
  if eligible.isEmpty then none
  else
    let selectedPlayer := eligible.getD (r s.idx % eligible.length) ""
    some ⟨objPush s.L position selectedPlayer,
      bumpStats s.stats selectedPlayer position,
      s.avail.erase selectedPlayer, s.idx + 1⟩

/-- Lineup-generation state carried across innings (availability is
recomputed per inning). -/
structure GenP where
  L : List (String × List String)
  stats : List (String × PlayerStats)
  idx : Nat

/-- One inning of `generateLineupsWithSittingAssignment`: compute who is
available, fill all nine positions, then bench-credit the sitting players. -/
def posGenInning (st : AppState) (r : Nat → Nat) (sittingThisInning : List String)
    (inning : Nat) (g : GenP) : Option GenP :=
  let availablePlayers := (getAttendingPlayers st).filter
    (fun p => ¬ sittingThisInning.contains p)
  (POSITIONS.foldl (fun acc position => acc.bind (fun s => assignPos st r inning s position))
      (some ⟨g.L, g.stats, availablePlayers, g.idx⟩)).map
    (fun s => ⟨s.L, sittingThisInning.foldl bumpBench s.stats, s.idx⟩)

/-- The six-inning position fill. -/
def posGenCore (st : AppState) (sa : List (List String)) (r : Nat → Nat) : Option GenP :=
  (List.range INNING_COUNT).foldl
    (fun acc i => acc.bind (posGenInning st r (sa.getD i []) i))
    (some ⟨posInit, statsInit st, 0⟩)

/-- Appending the predetermined sitting players as `"Sitting k"` rows, inning
by inning, padding any shortfall against `max(0, P - 9)` with the empty
sentinel. -/
def addSittingRows (st : AppState) (sa : List (List String))
    (L : List (String × List String)) : List (String × List String) :=
  (List.range INNING_COUNT).foldl (fun L0 i =>
    let sittingThisInning := sa.getD i []
    let L1 := sittingThisInning.enum.foldl
      (fun Lx e => objPush Lx ("Sitting " ++ toString (e.1 + 1)) e.2) L0
    let sittingSlots := (getAttendingPlayers st).length - 9
    (List.range' sittingThisInning.length (sittingSlots - sittingThisInning.length)).foldl
      (fun Lx j => objPush Lx ("Sitting " ++ toString (j + 1)) "") L1) L

/-- `generateLineupsWithSittingAssignment(sittingAssignment)`. -/
def generateLineupsWithSittingAssignment (st : AppState) (sa : List (List String))
    (r : Nat → Nat) : Option (List (String × List String)) :=
  (posGenCore st sa r).map (fun g => addSittingRows st sa g.L)

/-- One position of `generateSimpleLineups`: same eligibility filter, but an
empty eligible set pushes the empty sentinel instead of failing. -/
def simpleAssignPos (st : AppState) (r : Nat → Nat) (inning : Nat) (s : GenS)
    (position : String) : GenS :=
  let eligible := s.avail.filter (fun p =>
    canPlayerPlayPositionInSpecificInning st p position inning s.stats s.L)
  if eligible.isEmpty then
    ⟨objPush s.L position "", s.stats, s.avail, s.idx⟩
  else
    let selectedPlayer := eligible.getD (r s.idx % eligible.length) ""
    ⟨objPush s.L position selectedPlayer,
      bumpStats s.stats selectedPlayer position,
      s.avail.erase selectedPlayer, s.idx + 1⟩

/-- One inning of `generateSimpleLineups`: fill the nine positions from all
attending players, then append the leftovers as `"Sitting k"` rows (crediting
bench innings) and pad against `max(0, P - 9)` with the empty sentinel. -/
def simpleInning (st : AppState) (r : Nat → Nat) (g : GenP) (inning : Nat) : GenP :=
  let s := POSITIONS.foldl (simpleAssignPos st r inning)
    ⟨g.L, g.stats, getAttendingPlayers st, g.idx⟩
  let L1 := s.avail.enum.foldl
    (fun Lx e => objPush Lx ("Sitting " ++ toString (e.1 + 1)) e.2) s.L
  let stats1 := s.avail.foldl bumpBench s.stats
  let sittingSlots := (getAttendingPlayers st).length - 9
  let L2 := (List.range' s.avail.length (sittingSlots - s.avail.length)).foldl
    (fun Lx j => objPush Lx ("Sitting " ++ toString (j + 1)) "") L1
  ⟨L2, stats1, s.idx⟩

/-- The first `k` innings of `generateSimpleLineups`. -/
def simpleRun (st : AppState) (r : Nat → Nat) (k : Nat) : GenP :=
  (List.range k).foldl (simpleInning st r) ⟨posInit, statsInit st, 0⟩

/-- `generateSimpleLineups()` up to the final `Object.assign` into the
module state: the lineup object it builds. -/
def generateSimpleLineups (st : AppState) (r : Nat → Nat) :
    List (String × List String) :=
  (simpleRun st r INNING_COUNT).L

/-- The retry loop of `generateDefensiveLineups`, returning the new value of
`generatedLineups`.  `R n` is the random stream of attempt `n` (numbered
downward by remaining fuel from 1000); `R 1000` feeds the fallback
generator.  The JS loop keeps `bestScore = -1` and a strictly-greater test,
and every terminal branch merges into the previous `generatedLineups` via
`Object.assign`. -/
def orchLoop (st : AppState) (R : Nat → Nat → Nat) :
    Nat → Int → List (String × List String) → List (String × List String)
  | 0, _, best =>
    if best.isEmpty then objAssign st.generatedLineups (generateSimpleLineups st (R 1000))
    else objAssign st.generatedLineups best
  | fuel + 1, bestScore, best =>
    match generateFairSittingAssignment st with
    | none => orchLoop st R fuel bestScore best
    | some sa =>
      match generateLineupsWithSittingAssignment st sa (R (1000 - (fuel + 1))) with
      | none => orchLoop st R fuel bestScore best
      | some lineups =>
        let validation := validateLineup st lineups
        if validation.isValid then objAssign st.generatedLineups lineups
        else
          let score : Int := -(validation.errors.length : Int)
          if bestScore < score then orchLoop st R fuel score lineups
          else orchLoop st R fuel bestScore best

/-- `generateDefensiveLineups()`: up to 1000 attempts, then best-effort
commit or the simple fallback; result is the new `generatedLineups`. -/
def generateDefensiveLineups (st : AppState) (R : Nat → Nat → Nat) :
    List (String × List String) :=
  orchLoop st R 1000 (-1) []

/-- `clearGeneratedLineups()`: every key of the generated lineup deleted. -/
def clearGeneratedLineups (st : AppState) : AppState :=
  { st with generatedLineups := [] }

/-- `togglePlayerAttendance(player)`: default-in the flag, negate it, then
clear the generated lineups. -/
def togglePlayerAttendance (st : AppState) (player : String) : AppState :=
  let att1 :=
    match alookup st.playerAttendance player with
    | none => objSet st.playerAttendance player true
    | some _ => st.playerAttendance
  let newVal := ! ((alookup att1 player).getD true)
  clearGeneratedLineups { st with playerAttendance := objSet att1 player newVal }

/-- `addPlayer(playerName)`: trimmed, duplicates refused; returns the new
state and the JS boolean result. -/
def addPlayer (st : AppState) (playerName : String) : AppState × Bool :=
  if trimWS playerName ≠ "" ∧ ¬ st.roster.contains (trimWS playerName) then
    ({ st with
        roster := st.roster ++ [trimWS playerName],
        playerAttendance := objSet st.playerAttendance (trimWS playerName) true }, true)
  else (st, false)

/-- `removeFromBattingOrder(player)`. -/
def removeFromBattingOrder (st : AppState) (player : String) : AppState :=
  { st with battingOrder := st.battingOrder.erase player }

/-- `removePlayer(player)`: remove from the roster, the batting order, the
capabilities and the attendance map. -/
def removePlayer (st : AppState) (player : String) : AppState :=
  if st.roster.contains player then
    let st1 := { st with roster := st.roster.erase player }
    let st2 := removeFromBattingOrder st1 player
    { st2 with
        playerCapabilities := objDelete st2.playerCapabilities player,
        playerAttendance := objDelete st2.playerAttendance player }
  else st

/-- `updatePlayerName(oldName, newName)`: rename in roster, batting order,
capabilities and attendance; returns the new state and the JS boolean. -/
def updatePlayerName (st : AppState) (oldName newName : String) : AppState × Bool :=
  if trimWS newName ≠ "" ∧ ¬ st.roster.contains (trimWS newName) then
    if st.roster.contains oldName then
      let roster1 := st.roster.set (st.roster.indexOf oldName) (trimWS newName)
      let batting1 :=
        if st.battingOrder.contains oldName then
          st.battingOrder.set (st.battingOrder.indexOf oldName) (trimWS newName)
        else st.battingOrder
      let caps1 :=
        match alookup st.playerCapabilities oldName with
        | some caps => objDelete (objSet st.playerCapabilities (trimWS newName) caps) oldName
        | none => st.playerCapabilities
      let att1 :=
        match alookup st.playerAttendance oldName with
        | some b => objDelete (objSet st.playerAttendance (trimWS newName) b) oldName
        | none => st.playerAttendance
      ({ st with
          roster := roster1, battingOrder := batting1,
          playerCapabilities := caps1, playerAttendance := att1 }, true)
    else (st, false)
  else (st, false)

/-- Non-empty entries at one inning index across every row of a lineup
object (field positions and sitting rows alike). -/
def inningEntries (L : List (String × List String)) (inning : Nat) : List String :=
  (L.map (fun kv => kv.2.getD inning "")).filter (fun p => p ≠ "")

/-- Cap-proof invariant: each position row's occurrence count agrees with
the running statistics and stays within the three-inning cap.  With
`skipBlank = true` the blank sentinel (pushed by the fallback generator when
nobody is eligible, without a statistics update) is exempted. -/
def capSync (L : List (String × List String)) (stats : List (String × PlayerStats))
    (skipBlank : Bool) : Prop :=
  ∀ pos ∈ POSITIONS, ∀ p : String, (skipBlank = true → p ≠ "") →
    ((alookup L pos).getD []).count p = countFor (statsFor stats p) pos ∧
    countFor (statsFor stats p) pos ≤ 3

/-- Concrete nine-player state used by witnesses (all attending, no
capabilities needed by the validator). -/
def stWitValid : AppState :=
  ⟨["A", "B", "C", "D", "E", "F", "G", "H", "I"], [], [], [], []⟩

/-- A hand-built fully rule-compliant lineup over `stWitValid`: everybody
gets at least two infield innings, nobody sits, and Pitcher/Catcher are
occupied in contiguous two-inning runs. -/
def lineupWitValid : List (String × List String) :=
  [("Pitcher", ["A", "A", "G", "G", "I", "I"]),
   ("Catcher", ["B", "B", "H", "H", "F", "F"]),
   ("1st Base", ["C", "C", "I", "I", "A", "A"]),
   ("2nd Base", ["D", "D", "A", "A", "B", "B"]),
   ("3rd Base", ["E", "E", "B", "B", "C", "C"]),
   ("Shortstop", ["F", "F", "C", "C", "D", "D"]),
   ("Left Field", ["G", "G", "D", "D", "E", "E"]),
   ("Center Field", ["H", "H", "E", "E", "G", "G"]),
   ("Right Field", ["I", "I", "F", "F", "H", "H"])]

/-- Nine-player state in which everybody can play everything. -/
def stWit9 : AppState :=
  ⟨["Ann", "Ben", "Cal", "Dan", "Eve", "Fay", "Gus", "Hal", "Ivy"], [], [],
   ["Ann", "Ben", "Cal", "Dan", "Eve", "Fay", "Gus", "Hal", "Ivy"].map
     (fun p => (p, POSITIONS)), []⟩

/-- The all-empty sitting assignment a nine-player roster receives. -/
def saEmpty6 : List (List String) := [[], [], [], [], [], []]

/-- The lineup `generateLineupsWithSittingAssignment` produces on `stWit9`
with the empty sitting assignment and the constant-zero choice stream. -/
def lineupWit9 : List (String × List String) :=
  [("Pitcher", ["Ann", "Ann", "Ann", "Ben", "Ben", "Ben"]),
   ("Catcher", ["Ben", "Ben", "Ben", "Cal", "Cal", "Cal"]),
   ("1st Base", ["Cal", "Cal", "Cal", "Ann", "Ann", "Ann"]),
   ("2nd Base", ["Dan", "Dan", "Dan", "Eve", "Eve", "Eve"]),
   ("3rd Base", ["Eve", "Eve", "Eve", "Dan", "Dan", "Dan"]),
   ("Shortstop", ["Fay", "Fay", "Fay", "Gus", "Gus", "Gus"]),
   ("Left Field", ["Gus", "Gus", "Gus", "Fay", "Fay", "Fay"]),
   ("Center Field", ["Hal", "Hal", "Hal", "Ivy", "Ivy", "Ivy"]),
   ("Right Field", ["Ivy", "Ivy", "Ivy", "Hal", "Hal", "Hal"])]

/-- Ten-player all-attending state (one player sits per inning). -/
def stWit10 : AppState :=
  ⟨["Ann", "Ben", "Cal", "Dan", "Eve", "Fay", "Gus", "Hal", "Ivy", "Jo"], [], [], [], []⟩

/-- A state whose roster holds the same name eleven times (the share-URL
schema only requires a non-empty string array, so such states are
importable); on it the sitting generator aborts deterministically. -/
def stWitDup : AppState := ⟨List.replicate 11 "A", [], [], [], []⟩

/-- One-player state capable of Pitcher only: the fallback generator's cap
and consecutive rules become visible on it. -/
def stCex1 : AppState := ⟨["A"], [], [], [("A", ["Pitcher"])], []⟩

/-- One-player state with no capabilities and a stale generated-lineup key
`"X"`: every generation attempt fails and the fallback merge is visible. -/
def stCex2 : AppState := ⟨["A"], [], [("X", ["x"])], [], []⟩

/-- The availability list the sitting-aware generator computes for inning
`i`: attending players not sitting this inning. -/
def availAt (st : AppState) (sa : List (List String)) (i : Nat) : List String :=
  (getAttendingPlayers st).filter (fun p => ¬ (sa.getD i []).contains p)

/-- Decimal value of a digit string (used to invert `Nat.repr`). -/
def digitsVal (l : List Char) : Nat :=
  l.foldl (fun acc c => 10 * acc + (c.toNat - 48)) 0

/-- The key of the `j`-th sitting row (`j` zero-based, keys one-based). -/
def sitKeyN (j : Nat) : String :=
  "Sitting " ++ toString (j + 1)

/-- The sitting block of a lineup object after the first `k` innings have
been appended: one row per sitting slot, holding that slot's sitter for each
inning so far (no rows exist before the first inning has run). -/
def sitRowsAcc (sa : List (List String)) (spi k : Nat) : List (String × List String) :=
  if k = 0 then []
  else (List.range spi).map (fun jj =>
    (sitKeyN jj, (List.range k).map (fun i => (sa.getD i []).getD jj "")))

/-! ## Object-map lemmas -/

theorem alookup_cons {α : Type} (a : String × α) (t : List (String × α)) (k : String) :
    alookup (a :: t) k = if a.1 = k then some a.2 else alookup t k := by
  by_cases h : a.1 = k <;> simp [alookup, List.find?_cons, h]

theorem alookup_upd_self {α : Type} (k : String) (v : α) :
    ∀ m : List (String × α), m.any (fun kv => kv.1 == k) = true →
      alookup (m.map (fun kv => if kv.1 == k then (k, v) else kv)) k = some v := by
  intro m
  induction m with
  | nil => intro h; simp at h
  | cons a t ih =>
    intro h
    by_cases ha : a.1 = k
    · simp [alookup_cons, ha]
    · have ha' : (a.1 == k) = false := by simpa using ha
      simp only [List.any_cons, ha', Bool.false_or] at h
      simp only [List.map_cons, ha', Bool.false_eq_true, if_false]
      rw [alookup_cons]
      simp only [ha, if_false]
      exact ih h

theorem alookup_upd_ne {α : Type} (k k' : String) (v : α) (h : k' ≠ k) :
    ∀ m : List (String × α),
      alookup (m.map (fun kv => if kv.1 == k then (k, v) else kv)) k' = alookup m k' := by
  intro m
  induction m with
  | nil => rfl
  | cons a t ih =>
    by_cases ha : a.1 = k
    · have ha' : (a.1 == k) = true := by simpa using ha
      simp only [List.map_cons, ha', if_true]
      rw [alookup_cons, alookup_cons]
      simp only [ha, Ne.symm h, if_false]
      exact ih
    · have ha' : (a.1 == k) = false := by simpa using ha
      simp only [List.map_cons, ha', Bool.false_eq_true, if_false]
      rw [alookup_cons, alookup_cons]
      by_cases hk' : a.1 = k'
      · simp [hk']
      · simp only [hk', if_false]
        exact ih

theorem alookup_app_self {α : Type} (k : String) (v : α) :
    ∀ m : List (String × α), m.any (fun kv => kv.1 == k) = false →
      alookup (m ++ [(k, v)]) k = some v := by
  intro m
  induction m with
  | nil => intro _; simp [alookup_cons]
  | cons a t ih =>
    intro h
    simp only [List.any_cons, Bool.or_eq_false_iff, beq_eq_false_iff_ne] at h
    rw [List.cons_append, alookup_cons]
    simp only [h.1, if_false]
    exact ih (by simp [h.2])

theorem alookup_app_ne {α : Type} (k k' : String) (v : α) (h : k' ≠ k) :
    ∀ m : List (String × α), alookup (m ++ [(k, v)]) k' = alookup m k' := by
  intro m
  induction m with
  | nil => simp [alookup_cons, Ne.symm h, alookup]
  | cons a t ih =>
    rw [List.cons_append, alookup_cons, alookup_cons]
    by_cases hk' : a.1 = k'
    · simp [hk']
    · simp only [hk', if_false]
      exact ih

theorem alookup_objSet_self {α : Type} (m : List (String × α)) (k : String) (v : α) :
    alookup (objSet m k v) k = some v := by
  unfold objSet
  cases h : m.any (fun kv => kv.1 == k) with
  | true => simpa [h] using alookup_upd_self k v m h
  | false => simpa [h] using alookup_app_self k v m h

theorem alookup_objSet_ne {α : Type} (m : List (String × α)) (k k' : String) (v : α)
    (h : k' ≠ k) : alookup (objSet m k v) k' = alookup m k' := by
  unfold objSet
  cases hm : m.any (fun kv => kv.1 == k) with
  | true => simpa [hm] using alookup_upd_ne k k' v h m
  | false => simpa [hm] using alookup_app_ne k k' v h m

theorem alookup_objPush_self (m : List (String × List String)) (k : String) (x : String) :
    alookup (objPush m k x) k = some (((alookup m k).getD []) ++ [x]) :=
  alookup_objSet_self m k _

theorem alookup_objPush_ne (m : List (String × List String)) (k k' : String) (x : String)
    (h : k' ≠ k) : alookup (objPush m k x) k' = alookup m k' :=
  alookup_objSet_ne m k k' _ h

theorem mem_objKeys_objSet {α : Type} (m : List (String × α)) (k k' : String) (v : α)
    (h : k' ∈ objKeys m) : k' ∈ objKeys (objSet m k v) := by
  unfold objSet
  cases hm : m.any (fun kv => kv.1 == k) with
  | true =>
    simp only [if_true]
    simp only [objKeys, List.map_map, List.mem_map] at h ⊢
    obtain ⟨kv, hkv, hk⟩ := h
    refine ⟨kv, hkv, ?_⟩
    show (if (kv.1 == k) = true then (k, v) else kv).1 = k'
    cases hkk : kv.1 == k with
    | true =>
      have : kv.1 = k := by simpa using hkk
      simp only [if_true]
      rw [← this, hk]
    | false => simpa using hk
  | false =>
    simp only [Bool.false_eq_true, if_false]
    simp only [objKeys, List.map_append, List.mem_append]
    exact Or.inl h

theorem mem_objKeys_objAssign {α : Type} (src : List (String × α)) :
    ∀ dst : List (String × α), ∀ k ∈ objKeys dst, k ∈ objKeys (objAssign dst src) := by
  induction src with
  | nil => intro dst k hk; simpa [objAssign] using hk
  | cons a t ih =>
    intro dst k hk
    show k ∈ objKeys (objAssign (objSet dst a.1 a.2) t)
    exact ih _ k (mem_objKeys_objSet dst a.1 k a.2 hk)

/-! ## Eligibility helpers -/

theorem canInning_props {st : AppState} {p pos : String}
    {stats : List (String × PlayerStats)}
    (h : canPlayerPlayPositionInInning st p pos stats = true) :
    canPlayerPlayPosition st p pos = true ∧ countFor (statsFor stats p) pos < 3 := by
  unfold canPlayerPlayPositionInInning at h
  by_cases h1 : canPlayerPlayPosition st p pos = true
  · by_cases h2 : 3 ≤ countFor (statsFor stats p) pos
    · simp [h1, h2] at h
    · exact ⟨h1, by omega⟩
  · simp [h1] at h

theorem canSpecific_base {st : AppState} {p pos : String} {i : Nat}
    {stats : List (String × PlayerStats)} {L : List (String × List String)}
    (h : canPlayerPlayPositionInSpecificInning st p pos i stats L = true) :
    canPlayerPlayPositionInInning st p pos stats = true := by
  by_cases hb : canPlayerPlayPositionInInning st p pos stats = true
  · exact hb
  · unfold canPlayerPlayPositionInSpecificInning at h
    simp [hb] at h

theorem canSpecific_capability {st : AppState} {p pos : String} {i : Nat}
    {stats : List (String × PlayerStats)} {L : List (String × List String)}
    (h : canPlayerPlayPositionInSpecificInning st p pos i stats L = true) :
    canPlayerPlayPosition st p pos = true :=
  (canInning_props (canSpecific_base h)).1

theorem canSpecific_count_lt3 {st : AppState} {p pos : String} {i : Nat}
    {stats : List (String × PlayerStats)} {L : List (String × List String)}
    (h : canPlayerPlayPositionInSpecificInning st p pos i stats L = true) :
    countFor (statsFor stats p) pos < 3 :=
  (canInning_props (canSpecific_base h)).2

theorem getD_mod_mem {l : List String} (h : l ≠ []) (n : Nat) (d : String) :
    l.getD (n % l.length) d ∈ l := by
  have hlen : 0 < l.length := List.length_pos.mpr h
  have hlt : n % l.length < l.length := Nat.mod_lt _ hlen
  rw [List.getD_eq_getElem?_getD, List.getElem?_eq_getElem hlt]
  exact List.getElem_mem hlt

/-! ## Sitting-row keys never collide with position keys -/

theorem append_sitting_data (t : String) :
    ("Sitting " ++ t).data =
      'S' :: 'i' :: 't' :: 't' :: 'i' :: 'n' :: 'g' :: ' ' :: t.data := by
  rw [String.data_append]
  rfl

theorem sittingKey_ne_position (t : String) :
    ∀ pos ∈ POSITIONS, ("Sitting " ++ t) ≠ pos := by
  intro pos hpos he
  have hd : pos.data = 'S' :: 'i' :: 't' :: 't' :: 'i' :: 'n' :: 'g' :: ' ' :: t.data := by
    rw [← he]
    exact append_sitting_data t
  fin_cases hpos
  · rw [show ("Pitcher" : String).data = ['P', 'i', 't', 'c', 'h', 'e', 'r'] from rfl] at hd
    injection hd with h1 _
    exact absurd h1 (by decide)
  · rw [show ("Catcher" : String).data = ['C', 'a', 't', 'c', 'h', 'e', 'r'] from rfl] at hd
    injection hd with h1 _
    exact absurd h1 (by decide)
  · rw [show ("1st Base" : String).data = ['1', 's', 't', ' ', 'B', 'a', 's', 'e'] from rfl] at hd
    injection hd with h1 _
    exact absurd h1 (by decide)
  · rw [show ("2nd Base" : String).data = ['2', 'n', 'd', ' ', 'B', 'a', 's', 'e'] from rfl] at hd
    injection hd with h1 _
    exact absurd h1 (by decide)
  · rw [show ("3rd Base" : String).data = ['3', 'r', 'd', ' ', 'B', 'a', 's', 'e'] from rfl] at hd
    injection hd with h1 _
    exact absurd h1 (by decide)
  · rw [show ("Shortstop" : String).data =
      ['S', 'h', 'o', 'r', 't', 's', 't', 'o', 'p'] from rfl] at hd
    injection hd with _ h2
    injection h2 with h3 _
    exact absurd h3 (by decide)
  · rw [show ("Left Field" : String).data =
      ['L', 'e', 'f', 't', ' ', 'F', 'i', 'e', 'l', 'd'] from rfl] at hd
    injection hd with h1 _
    exact absurd h1 (by decide)
  · rw [show ("Center Field" : String).data =
      ['C', 'e', 'n', 't', 'e', 'r', ' ', 'F', 'i', 'e', 'l', 'd'] from rfl] at hd
    injection hd with h1 _
    exact absurd h1 (by decide)
  · rw [show ("Right Field" : String).data =
      ['R', 'i', 'g', 'h', 't', ' ', 'F', 'i', 'e', 'l', 'd'] from rfl] at hd
    injection hd with h1 _
    exact absurd h1 (by decide)

theorem alookup_sitPush_fold (pos : String) (hpos : pos ∈ POSITIONS) :
    ∀ (es : List (Nat × String)) (L : List (String × List String)),
      alookup (es.foldl
        (fun Lx e => objPush Lx ("Sitting " ++ toString (e.1 + 1)) e.2) L) pos =
      alookup L pos := by
  intro es
  induction es with
  | nil => intro L; rfl
  | cons e t ih =>
    intro L
    rw [List.foldl_cons, ih]
    exact alookup_objPush_ne _ _ _ _
      (fun hx => sittingKey_ne_position (toString (e.1 + 1)) pos hpos hx.symm)

theorem alookup_padPush_fold (pos : String) (hpos : pos ∈ POSITIONS) :
    ∀ (js : List Nat) (L : List (String × List String)),
      alookup (js.foldl
        (fun Lx j => objPush Lx ("Sitting " ++ toString (j + 1)) "") L) pos =
      alookup L pos := by
  intro js
  induction js with
  | nil => intro L; rfl
  | cons j t ih =>
    intro L
    rw [List.foldl_cons, ih]
    exact alookup_objPush_ne _ _ _ _
      (fun hx => sittingKey_ne_position (toString (j + 1)) pos hpos hx.symm)

/-! ## Claim C3: the Pitcher/Catcher consecutive-assignment rule -/

/-- Claim C3.  For Pitcher or Catcher, once the accumulated count at the
position is at least one and the player does occur in the position row, the
per-inning check passes exactly when the inning immediately follows the
player's most recent inning there; a first-ever assignment (count zero) is
always allowed when the base rules pass; and on the other seven positions
the check coincides with the base rule. -/
theorem consecutive_rule_spec (st : AppState) (player position : String) (inning : Nat)
    (stats : List (String × PlayerStats)) (lineups : List (String × List String)) :
    ((position = "Pitcher" ∨ position = "Catcher") →
      canPlayerPlayPositionInInning st player position stats = true →
      1 ≤ countFor (statsFor stats player) position →
      ∀ l, lastIdxOf ((alookup lineups position).getD []) player = some l →
        (canPlayerPlayPositionInSpecificInning st player position inning stats lineups = true ↔
          inning = l + 1)) ∧
    ((position = "Pitcher" ∨ position = "Catcher") →
      canPlayerPlayPositionInInning st player position stats = true →
      countFor (statsFor stats player) position = 0 →
      canPlayerPlayPositionInSpecificInning st player position inning stats lineups = true) ∧
    (position ≠ "Pitcher" → position ≠ "Catcher" →
      canPlayerPlayPositionInSpecificInning st player position inning stats lineups =
        canPlayerPlayPositionInInning st player position stats) := by
  refine ⟨?_, ?_, ?_⟩
  · intro hpc hbase hcount l hlast
    have hc : ¬ (countFor (statsFor stats player) position = 0) := by omega
    simp [canPlayerPlayPositionInSpecificInning, hbase, hpc, hc, hlast]
  · intro hpc hbase hcount
    simp [canPlayerPlayPositionInSpecificInning, hbase, hpc, hcount]
  · intro hn1 hn2
    cases hb : canPlayerPlayPositionInInning st player position stats <;>
      simp [canPlayerPlayPositionInSpecificInning, hb, hn1, hn2]

/-- Witness for C3: with a one-player roster capable of Pitcher, one prior
Pitcher inning at index 0, inning 1 is accepted by the consecutive rule. -/
theorem consecutive_rule_spec_witness :
    canPlayerPlayPositionInSpecificInning ⟨["A"], [], [], [("A", ["Pitcher"])], []⟩
      "A" "Pitcher" 1 (bumpStats (statsInit ⟨["A"], [], [], [("A", ["Pitcher"])], []⟩)
        "A" "Pitcher") [("Pitcher", ["A"])] = true :=
  ((consecutive_rule_spec ⟨["A"], [], [], [("A", ["Pitcher"])], []⟩ "A" "Pitcher" 1
      (bumpStats (statsInit ⟨["A"], [], [], [("A", ["Pitcher"])], []⟩) "A" "Pitcher")
      [("Pitcher", ["A"])]).1
    (Or.inl rfl) (by decide) (by decide) 0 (by decide)).mpr rfl

/-! ## Claim C1: the fallback generator -/

theorem simpleAssignPos_spec (st : AppState) (r : Nat → Nat) (inning : Nat) (s : GenS)
    (pos : String) :
    ∃ x, (simpleAssignPos st r inning s pos).L = objPush s.L pos x ∧
      (x = "" ∨ (x ∈ s.avail ∧ canPlayerPlayPosition st x pos = true)) ∧
      (∀ p ∈ (simpleAssignPos st r inning s pos).avail, p ∈ s.avail) := by
  unfold simpleAssignPos
  by_cases he : (s.avail.filter (fun p =>
      canPlayerPlayPositionInSpecificInning st p pos inning s.stats s.L)).isEmpty
  · exact ⟨"", by simp [he], Or.inl rfl, by simp [he]⟩
  · set elig := s.avail.filter (fun p =>
      canPlayerPlayPositionInSpecificInning st p pos inning s.stats s.L) with helig
    have hne : elig ≠ [] := by
      intro h0
      rw [h0] at he
      exact he rfl
    have hmem : elig.getD (r s.idx % elig.length) "" ∈ elig := getD_mod_mem hne _ _
    have hmem2 := List.mem_filter.mp (helig ▸ hmem)
    refine ⟨elig.getD (r s.idx % elig.length) "", by simp [he], ?_, ?_⟩
    · exact Or.inr ⟨hmem2.1, canSpecific_capability (by simpa using hmem2.2)⟩
    · intro p hp
      simp only [he, if_false] at hp
      exact List.erase_subset _ _ (by simpa using hp)

theorem simpleFold_rows (st : AppState) (r : Nat → Nat) (inning : Nat) :
    ∀ (ps : List String) (s : GenS),
      (∀ pos, pos ∉ ps →
        alookup (ps.foldl (simpleAssignPos st r inning) s).L pos = alookup s.L pos) ∧
      (∀ p ∈ (ps.foldl (simpleAssignPos st r inning) s).avail, p ∈ s.avail) ∧
      (ps.Nodup → ∀ pos ∈ ps, ∃ x,
        alookup (ps.foldl (simpleAssignPos st r inning) s).L pos =
          some (((alookup s.L pos).getD []) ++ [x]) ∧
        (x = "" ∨ (x ∈ s.avail ∧ canPlayerPlayPosition st x pos = true))) := by
  intro ps
  induction ps with
  | nil =>
    intro s
    refine ⟨fun pos _ => rfl, fun p hp => hp, fun _ pos hpos => absurd hpos (by simp)⟩
  | cons a t ih =>
    intro s
    obtain ⟨xa, hLa, hxa, hav⟩ := simpleAssignPos_spec st r inning s a
    obtain ⟨ih1, ih2, ih3⟩ := ih (simpleAssignPos st r inning s a)
    refine ⟨?_, ?_, ?_⟩
    · intro pos hpos
      rw [List.foldl_cons, ih1 pos (fun hx => hpos (List.mem_cons_of_mem a hx)), hLa]
      exact alookup_objPush_ne _ _ _ _ (fun hx => hpos (hx ▸ List.mem_cons_self a t))
    · intro p hp
      rw [List.foldl_cons] at hp
      exact hav p (ih2 p hp)
    · intro hnd pos hpos
      have hnd' := List.nodup_cons.mp hnd
      rcases List.mem_cons.mp hpos with hpa | hpt
      · subst hpa
        refine ⟨xa, ?_, hxa⟩
        rw [List.foldl_cons, ih1 pos hnd'.1, hLa]
        exact alookup_objPush_self _ _ _
      · obtain ⟨x, hx1, hx2⟩ := ih3 hnd'.2 pos hpt
        have hne : pos ≠ a := fun hx => hnd'.1 (hx ▸ hpt)
        refine ⟨x, ?_, ?_⟩
        · rw [List.foldl_cons, hx1, hLa, alookup_objPush_ne _ _ _ _ hne]
        · rcases hx2 with hx2 | ⟨hm, hc⟩
          · exact Or.inl hx2
          · exact Or.inr ⟨hav x hm, hc⟩

theorem simpleInning_rows (st : AppState) (r : Nat → Nat) (g : GenP) (inning : Nat)
    (pos : String) (hpos : pos ∈ POSITIONS) :
    ∃ x, alookup (simpleInning st r g inning).L pos =
      some (((alookup g.L pos).getD []) ++ [x]) ∧
      (x = "" ∨ (x ∈ getAttendingPlayers st ∧ canPlayerPlayPosition st x pos = true)) := by
  obtain ⟨_, _, h3⟩ := simpleFold_rows st r inning POSITIONS
    ⟨g.L, g.stats, getAttendingPlayers st, g.idx⟩
  obtain ⟨x, hx1, hx2⟩ := h3 (by decide) pos hpos
  refine ⟨x, ?_, hx2⟩
  simp only [simpleInning]
  rw [alookup_padPush_fold pos hpos, alookup_sitPush_fold pos hpos]
  exact hx1

theorem simpleRun_rows (st : AppState) (r : Nat → Nat) :
    ∀ k pos, pos ∈ POSITIONS →
      ∃ row, alookup (simpleRun st r k).L pos = some row ∧ row.length = k ∧
        ∀ x ∈ row, x = "" ∨
          (x ∈ getAttendingPlayers st ∧ canPlayerPlayPosition st x pos = true) := by
  intro k
  induction k with
  | zero =>
    intro pos hpos
    refine ⟨[], ?_, rfl, by simp⟩
    have h0 : alookup posInit pos = some [] := by fin_cases hpos <;> rfl
    simpa [simpleRun] using h0
  | succ k ih =>
    intro pos hpos
    obtain ⟨row, h1, h2, h3⟩ := ih pos hpos
    obtain ⟨x, hx1, hx2⟩ := simpleInning_rows st r (simpleRun st r k) k pos hpos
    have hstep : simpleRun st r (k + 1) = simpleInning st r (simpleRun st r k) k := by
      unfold simpleRun
      rw [List.range_succ, List.foldl_append, List.foldl_cons, List.foldl_nil]
    rw [h1] at hx1
    refine ⟨row ++ [x], ?_, by simp [h2], ?_⟩
    · rw [hstep]
      simpa using hx1
    · intro y hy
      rcases List.mem_append.mp hy with hy | hy
      · exact h3 y hy
      · rw [List.mem_singleton.mp hy]
        exact hx2

/-- Amended claim C1.  The fallback generator never fails — every position
row has exactly six entries, each either an attending (hence available)
capability-eligible player or the empty sentinel — but it fills positions
through the full per-inning rule (`canPlayerPlayPositionInSpecificInning`),
so only the infield-minimum and bench-fairness rules are ignored; the
per-position cap and the Pitcher/Catcher consecutive-run rules are enforced,
contrary to the original claim. -/
theorem fallback_rule_respecting_total (st : AppState) (r : Nat → Nat) :
    ∀ pos ∈ POSITIONS, ∃ row,
      alookup (generateSimpleLineups st r) pos = some row ∧ row.length = 6 ∧
      ∀ x ∈ row, x = "" ∨
        (x ∈ getAttendingPlayers st ∧ canPlayerPlayPosition st x pos = true) := by
  intro pos hpos
  exact simpleRun_rows st r 6 pos hpos

/-- Witness for the amended C1: on the one-player Pitcher-only state the
Pitcher row indeed has six entries. -/
theorem fallback_rule_respecting_total_witness :
    ((alookup (generateSimpleLineups stCex1 (fun _ => 0)) "Pitcher").getD []).length = 6 := by
  obtain ⟨row, h1, h2, _⟩ :=
    fallback_rule_respecting_total stCex1 (fun _ => 0) "Pitcher" (by decide)
  rw [h1]
  simpa using h2

set_option maxRecDepth 4000 in
/-- Counterexample to C1 as stated: with a single attending player capable
of Pitcher, the fallback produces `["A","A","A","","",""]` in the Pitcher
row — inning 4 is left empty although the capability-eligible player A is
available (nobody is fielded at all in inning 4), because the generator
enforces the 3-inning cap and the consecutive-run rule rather than ignoring
them. -/
theorem fallback_capability_only_counterexample :
    alookup (generateSimpleLineups stCex1 (fun _ => 0)) "Pitcher" =
      some ["A", "A", "A", "", "", ""] ∧
    inningEntries (generateSimpleLineups stCex1 (fun _ => 0)) 3 = [] ∧
    getAttendingPlayers stCex1 = ["A"] ∧
    canPlayerPlayPosition stCex1 "A" "Pitcher" = true := by
  decide

/-! ## Claim C6: the three-innings-per-position cap -/

theorem foldl_preserve {α β : Type} (C : α → Prop) (f : α → β → α) :
    ∀ (l : List β) (b : α), C b → (∀ x a, a ∈ l → C x → C (f x a)) → C (l.foldl f b) := by
  intro l
  induction l with
  | nil => intro b hb _; exact hb
  | cons a t ih =>
    intro b hb hstep
    rw [List.foldl_cons]
    exact ih (f b a) (hstep b a (List.mem_cons_self a t) hb)
      (fun x a' ha' hx => hstep x a' (List.mem_cons_of_mem a ha') hx)

theorem bumpStats_counts (stats : List (String × PlayerStats)) (sel pos' p q : String) :
    countFor (statsFor (bumpStats stats sel pos') p) q =
      countFor (statsFor stats p) q + (if p = sel ∧ q = pos' then 1 else 0) := by
  unfold bumpStats statsFor
  by_cases h1 : p = sel
  · subst h1
    rw [alookup_objSet_self]
    simp only [Option.getD_some]
    unfold countFor
    by_cases h2 : q = pos'
    · subst h2
      rw [alookup_objSet_self]
      simp
    · show (alookup (objSet (statsFor stats p).positionCounts pos' _) q).getD 0 = _
      rw [alookup_objSet_ne _ _ _ _ h2]
      simp [h2, statsFor, countFor]
  · rw [alookup_objSet_ne _ _ _ _ h1]
    simp [h1]

theorem bumpBench_counts (stats : List (String × PlayerStats)) (b p q : String) :
    countFor (statsFor (bumpBench stats b) p) q = countFor (statsFor stats p) q := by
  unfold bumpBench statsFor
  by_cases h : p = b
  · subst h
    rw [alookup_objSet_self]
    simp [countFor, statsFor]
  · rw [alookup_objSet_ne _ _ _ _ h]

theorem benchFold_counts (sel : List String) :
    ∀ (stats : List (String × PlayerStats)) (p q : String),
      countFor (statsFor (sel.foldl bumpBench stats) p) q =
        countFor (statsFor stats p) q := by
  induction sel with
  | nil => intro stats p q; rfl
  | cons b t ih =>
    intro stats p q
    rw [List.foldl_cons, ih, bumpBench_counts]

theorem alookup_const_map {α : Type} (c : α) :
    ∀ (l : List String) (k : String) (v : α),
      alookup (l.map (fun p => (p, c))) k = some v → v = c := by
  intro l
  induction l with
  | nil => intro k v h; exact absurd h (by simp [alookup])
  | cons a t ih =>
    intro k v h
    rw [List.map_cons, alookup_cons] at h
    by_cases ha : a = k
    · simp only [ha, if_true] at h
      exact (Option.some.inj h).symm
    · simp only [ha, if_false] at h
      exact ih k v h

theorem countFor_statsInit (st : AppState) (p pos : String) :
    countFor (statsFor (statsInit st) p) pos = 0 := by
  unfold statsInit statsFor
  cases h : alookup ((getAttendingPlayers st).map (fun p => (p, statsZero))) p with
  | none => rfl
  | some v =>
    have hv := alookup_const_map statsZero (getAttendingPlayers st) p v h
    subst hv
    simp only [Option.getD_some]
    unfold countFor statsZero
    cases h2 : alookup (POSITIONS.map (fun position => (position, 0))) pos with
    | none => rfl
    | some w =>
      have hw := alookup_const_map 0 POSITIONS pos w h2
      subst hw
      rfl

theorem count_concat (l : List String) (x p : String) :
    (l ++ [x]).count p = l.count p + (if x = p then 1 else 0) := by
  by_cases h : x = p
  · simp [h, List.count_append, List.count_cons]
  · simp [List.count_append, List.count_cons, h,
      show ¬ (p = x) from fun hpx => h hpx.symm]

theorem assignPos_capSync (st : AppState) (r : Nat → Nat) (inning : Nat) (s : GenS)
    (pos' : String) (hpos' : pos' ∈ POSITIONS) (s' : GenS)
    (h : assignPos st r inning s pos' = some s')
    (hin : capSync s.L s.stats false) : capSync s'.L s'.stats false := by
  unfold assignPos at h
  by_cases he : (s.avail.filter (fun p =>
      canPlayerPlayPositionInSpecificInning st p pos' inning s.stats s.L)).isEmpty
  · rw [if_pos he] at h
    exact absurd h (by simp)
  · rw [if_neg he] at h
    obtain rfl := Option.some.inj h
    show capSync (objPush s.L pos'
        ((s.avail.filter (fun p =>
          canPlayerPlayPositionInSpecificInning st p pos' inning s.stats s.L)).getD
          (r s.idx % (s.avail.filter (fun p =>
            canPlayerPlayPositionInSpecificInning st p pos' inning s.stats s.L)).length) ""))
      (bumpStats s.stats
        ((s.avail.filter (fun p =>
          canPlayerPlayPositionInSpecificInning st p pos' inning s.stats s.L)).getD
          (r s.idx % (s.avail.filter (fun p =>
            canPlayerPlayPositionInSpecificInning st p pos' inning s.stats s.L)).length) "")
        pos') false
    set elig := s.avail.filter (fun p =>
      canPlayerPlayPositionInSpecificInning st p pos' inning s.stats s.L) with helig
    set sel := elig.getD (r s.idx % elig.length) "" with hselDef
    have hne : elig ≠ [] := fun h0 => he (by rw [h0]; rfl)
    have hmem : sel ∈ elig := getD_mod_mem hne _ _
    have hsel_ok := (List.mem_filter.mp (helig ▸ hmem)).2
    have hlt3 : countFor (statsFor s.stats sel) pos' < 3 :=
      canSpecific_count_lt3 (by simpa using hsel_ok)
    intro pos hpos p _
    obtain ⟨hc, hb⟩ := hin pos hpos p (by simp)
    by_cases hpp : pos = pos'
    · subst hpp
      constructor
      · rw [alookup_objPush_self]
        simp only [Option.getD_some]
        rw [count_concat, hc, bumpStats_counts]
        by_cases hps : p = sel
        · subst hps
          simp
        · have hsp : ¬ (sel = p) := fun hx => hps hx.symm
          simp [hps, hsp]
      · rw [bumpStats_counts]
        by_cases hps : p = sel
        · subst hps
          simp only [and_self, if_true]
          omega
        · simp only [hps, false_and, if_false]
          omega
    · constructor
      · rw [alookup_objPush_ne _ _ _ _ hpp, hc, bumpStats_counts]
        by_cases hps : p = sel
        · subst hps
          simp [hpp]
        · simp [hps]
      · rw [bumpStats_counts]
        by_cases hps : p = sel
        · subst hps
          simp only [hpp, and_false, if_false]
          omega
        · simp only [hps, false_and, if_false]
          omega

theorem posGenInning_capSync (st : AppState) (r : Nat → Nat) (sit : List String)
    (inning : Nat) (g g' : GenP) (h : posGenInning st r sit inning g = some g')
    (hin : capSync g.L g.stats false) : capSync g'.L g'.stats false := by
  unfold posGenInning at h
  obtain ⟨s, hs, hmap⟩ := Option.map_eq_some'.mp h
  have hinv' : capSync s.L s.stats false := by
    refine foldl_preserve
      (fun o : Option GenS => ∀ s', o = some s' → capSync s'.L s'.stats false)
      _ POSITIONS _ ?_ ?_ s hs
    · intro s' hs'
      obtain rfl := Option.some.inj hs'
      exact hin
    · intro x a ha hx s' hs'
      obtain ⟨sm, hsm, hstep⟩ := Option.bind_eq_some.mp hs'
      exact assignPos_capSync st r inning sm a ha s' hstep (hx sm hsm)
  subst hmap
  intro pos hpos p hp
  obtain ⟨hc, hb⟩ := hinv' pos hpos p hp
  refine ⟨?_, ?_⟩
  · show ((alookup s.L pos).getD []).count p =
      countFor (statsFor (sit.foldl bumpBench s.stats) p) pos
    rw [benchFold_counts, hc]
  · show countFor (statsFor (sit.foldl bumpBench s.stats) p) pos ≤ 3
    rw [benchFold_counts]
    exact hb

theorem alookup_addSittingRows (st : AppState) (sa : List (List String))
    (pos : String) (hpos : pos ∈ POSITIONS) :
    ∀ (l : List Nat) (L : List (String × List String)),
      alookup (l.foldl (fun L0 i =>
        let sittingThisInning := sa.getD i []
        let L1 := sittingThisInning.enum.foldl
          (fun Lx e => objPush Lx ("Sitting " ++ toString (e.1 + 1)) e.2) L0
        let sittingSlots := (getAttendingPlayers st).length - 9
        (List.range' sittingThisInning.length
          (sittingSlots - sittingThisInning.length)).foldl
          (fun Lx j => objPush Lx ("Sitting " ++ toString (j + 1)) "") L1) L) pos =
      alookup L pos := by
  intro l
  induction l with
  | nil => intro L; rfl
  | cons i t ih =>
    intro L
    rw [List.foldl_cons, ih]
    simp only []
    rw [alookup_padPush_fold pos hpos, alookup_sitPush_fold pos hpos]

theorem simpleAssignPos_capSync (st : AppState) (r : Nat → Nat) (inning : Nat) (s : GenS)
    (pos' : String) (hpos' : pos' ∈ POSITIONS)
    (hin : capSync s.L s.stats true) :
    capSync (simpleAssignPos st r inning s pos').L
      (simpleAssignPos st r inning s pos').stats true := by
  unfold simpleAssignPos
  by_cases he : (s.avail.filter (fun p =>
      canPlayerPlayPositionInSpecificInning st p pos' inning s.stats s.L)).isEmpty
  · rw [if_pos he]
    show capSync (objPush s.L pos' "") s.stats true
    intro pos hpos p hp
    obtain ⟨hc, hb⟩ := hin pos hpos p hp
    refine ⟨?_, hb⟩
    by_cases hpp : pos = pos'
    · subst hpp
      rw [alookup_objPush_self]
      simp only [Option.getD_some]
      rw [count_concat, hc]
      have : ¬ (("" : String) = p) := fun hx => (hp rfl) hx.symm
      simp [this]
    · rw [alookup_objPush_ne _ _ _ _ hpp, hc]
  · rw [if_neg he]
    show capSync (objPush s.L pos'
        ((s.avail.filter (fun p =>
          canPlayerPlayPositionInSpecificInning st p pos' inning s.stats s.L)).getD
          (r s.idx % (s.avail.filter (fun p =>
            canPlayerPlayPositionInSpecificInning st p pos' inning s.stats s.L)).length) ""))
      (bumpStats s.stats
        ((s.avail.filter (fun p =>
          canPlayerPlayPositionInSpecificInning st p pos' inning s.stats s.L)).getD
          (r s.idx % (s.avail.filter (fun p =>
            canPlayerPlayPositionInSpecificInning st p pos' inning s.stats s.L)).length) "")
        pos') true
    set elig := s.avail.filter (fun p =>
      canPlayerPlayPositionInSpecificInning st p pos' inning s.stats s.L) with helig
    set sel := elig.getD (r s.idx % elig.length) "" with hselDef
    have hne : elig ≠ [] := fun h0 => he (by rw [h0]; rfl)
    have hmem : sel ∈ elig := getD_mod_mem hne _ _
    have hsel_ok := (List.mem_filter.mp (helig ▸ hmem)).2
    have hlt3 : countFor (statsFor s.stats sel) pos' < 3 :=
      canSpecific_count_lt3 (by simpa using hsel_ok)
    intro pos hpos p hp
    obtain ⟨hc, hb⟩ := hin pos hpos p hp
    by_cases hpp : pos = pos'
    · subst hpp
      constructor
      · rw [alookup_objPush_self]
        simp only [Option.getD_some]
        rw [count_concat, hc, bumpStats_counts]
        by_cases hps : p = sel
        · subst hps
          simp
        · have hsp : ¬ (sel = p) := fun hx => hps hx.symm
          simp [hps, hsp]
      · rw [bumpStats_counts]
        by_cases hps : p = sel
        · subst hps
          simp only [and_self, if_true]
          omega
        · simp only [hps, false_and, if_false]
          omega
    · constructor
      · rw [alookup_objPush_ne _ _ _ _ hpp, hc, bumpStats_counts]
        by_cases hps : p = sel
        · subst hps
          simp [hpp]
        · simp [hps]
      · rw [bumpStats_counts]
        by_cases hps : p = sel
        · subst hps
          simp only [hpp, and_false, if_false]
          omega
        · simp only [hps, false_and, if_false]
          omega

theorem simpleInning_capSync (st : AppState) (r : Nat → Nat) (g : GenP) (inning : Nat)
    (hin : capSync g.L g.stats true) :
    capSync (simpleInning st r g inning).L (simpleInning st r g inning).stats true := by
  have hfold : capSync
      (POSITIONS.foldl (simpleAssignPos st r inning)
        ⟨g.L, g.stats, getAttendingPlayers st, g.idx⟩).L
      (POSITIONS.foldl (simpleAssignPos st r inning)
        ⟨g.L, g.stats, getAttendingPlayers st, g.idx⟩).stats true := by
    refine foldl_preserve (fun s : GenS => capSync s.L s.stats true) _ POSITIONS _ hin ?_
    intro x a ha hx
    exact simpleAssignPos_capSync st r inning x a ha hx
  intro pos hpos p hp
  obtain ⟨hc, hb⟩ := hfold pos hpos p hp
  constructor
  · show ((alookup (simpleInning st r g inning).L pos).getD []).count p =
      countFor (statsFor (simpleInning st r g inning).stats p) pos
    simp only [simpleInning]
    rw [alookup_padPush_fold pos hpos, alookup_sitPush_fold pos hpos, benchFold_counts]
    exact hc
  · show countFor (statsFor (simpleInning st r g inning).stats p) pos ≤ 3
    simp only [simpleInning]
    rw [benchFold_counts]
    exact hb

/-- Claim C6.  Both generators keep every player's per-position tally within
three innings: any lineup returned by the constrained generator, and every
position row of the fallback generator (for real player names; the blank
sentinel is not a player), contains no name more than three times in any of
the nine position rows. -/
theorem position_cap_three (st : AppState) (sa : List (List String)) (r : Nat → Nat) :
    (∀ L, generateLineupsWithSittingAssignment st sa r = some L →
      ∀ pos ∈ POSITIONS, ∀ p : String, ((alookup L pos).getD []).count p ≤ 3) ∧
    (∀ pos ∈ POSITIONS, ∀ p : String, p ≠ "" →
      ((alookup (generateSimpleLineups st r) pos).getD []).count p ≤ 3) := by
  constructor
  · intro L hL pos hpos p
    unfold generateLineupsWithSittingAssignment at hL
    cases hcore : posGenCore st sa r with
    | none => rw [hcore] at hL; simp at hL
    | some g =>
      rw [hcore] at hL
      obtain ⟨g2, hg2, hmap⟩ := Option.map_eq_some'.mp hL
      obtain rfl := Option.some.inj hg2
      subst hmap
      have hinv : capSync g.L g.stats false := by
        unfold posGenCore at hcore
        have := foldl_preserve
          (fun o : Option GenP => ∀ g', o = some g' → capSync g'.L g'.stats false)
          (fun acc i => acc.bind (posGenInning st r (sa.getD i []) i))
          (List.range INNING_COUNT) (some ⟨posInit, statsInit st, 0⟩) ?_ ?_
        · exact this g hcore
        · intro g' hg'
          obtain rfl : (⟨posInit, statsInit st, 0⟩ : GenP) = g' := by simpa using hg'
          intro pos' hpos' q _
          have h0 : alookup posInit pos' = some [] := by fin_cases hpos' <;> rfl
          show ((alookup posInit pos').getD []).count q = countFor (statsFor (statsInit st) q) pos' ∧
            countFor (statsFor (statsInit st) q) pos' ≤ 3
          rw [countFor_statsInit, h0]
          simp
        · intro x a _ hx g' hg'
          obtain ⟨gm, hgm, hstep⟩ := Option.bind_eq_some.mp hg'
          exact posGenInning_capSync st r (sa.getD a []) a gm g' hstep (hx gm hgm)
      have hrow : alookup (addSittingRows st sa g.L) pos = alookup g.L pos := by
        unfold addSittingRows
        exact alookup_addSittingRows st sa pos hpos (List.range INNING_COUNT) g.L
      rw [hrow]
      obtain ⟨hc, hb⟩ := hinv pos hpos p (by simp)
      omega
  · intro pos hpos p hp
    have hrun : capSync (simpleRun st r INNING_COUNT).L (simpleRun st r INNING_COUNT).stats
        true := by
      unfold simpleRun
      refine foldl_preserve (fun g : GenP => capSync g.L g.stats true) _
        (List.range INNING_COUNT) _ ?_ ?_
      · intro pos' hpos' q _
        have h0 : alookup posInit pos' = some [] := by fin_cases hpos' <;> rfl
        show ((alookup posInit pos').getD []).count q = countFor (statsFor (statsInit st) q) pos' ∧
          countFor (statsFor (statsInit st) q) pos' ≤ 3
        rw [countFor_statsInit, h0]
        simp
      · intro x a _ hx
        exact simpleInning_capSync st r x a hx
    obtain ⟨hc, hb⟩ := hrun pos hpos p (fun _ => hp)
    show ((alookup (simpleRun st r INNING_COUNT).L pos).getD []).count p ≤ 3
    omega

/-- Witness for C6: on the nine-player full-capability state the constrained
generator returns a lineup, and the theorem bounds Ann's Pitcher tally. -/
theorem position_cap_three_witness :
    ((alookup lineupWit9 "Pitcher").getD []).count "Ann" ≤ 3 :=
  (position_cap_three stWit9 saEmpty6 (fun _ => 0)).1 lineupWit9 (by decide) "Pitcher"
    (by decide) "Ann"

/-! ## Claim C7: the lineup validator -/

/-- Claim C7.  `validateLineup` is valid exactly when its error list is
empty, and validity forces at least two infield innings for every attending
player and a bench spread of at most one (the model is a pure function, so
read-onlyness holds by construction). -/
theorem validator_spec (st : AppState) (L : List (String × List String)) :
    ((validateLineup st L).isValid = true ↔ (validateLineup st L).errors = []) ∧
    ((validateLineup st L).isValid = true →
      (∀ p ∈ getAttendingPlayers st,
        2 ≤ (statsFor (calculatePlayerStats st L) p).infieldInnings) ∧
      ∀ h t, benchCounts st (calculatePlayerStats st L) = h :: t →
        natMaxOf h t - natMinOf h t ≤ 1) := by
  constructor
  · simp [validateLineup, List.isEmpty_iff]
  · intro hv
    have he : (validateLineup st L).errors = [] := by
      simpa [validateLineup, List.isEmpty_iff] using hv
    have he2 : infieldErrors st (calculatePlayerStats st L) = [] ∧
        benchError st (calculatePlayerStats st L) = [] := by
      simp only [validateLineup, List.append_eq_nil] at he
      exact ⟨he.1.1.1, he.1.1.2⟩
    constructor
    · intro p hp
      have h3 := (List.filterMap_eq_nil_iff.mp he2.1) p hp
      by_contra hcon
      push_neg at hcon
      rw [if_pos hcon] at h3
      exact absurd h3 (by simp)
    · intro h t hbc
      have hb := he2.2
      unfold benchError at hb
      rw [hbc] at hb
      by_contra hcon
      push_neg at hcon
      simp [hcon] at hb

set_option maxRecDepth 40000 in
/-- Witness for C7: the hand-built compliant lineup is accepted, and the
theorem then yields player A's infield minimum. -/
theorem validator_spec_witness :
    2 ≤ (statsFor (calculatePlayerStats stWitValid lineupWitValid) "A").infieldInnings :=
  ((validator_spec stWitValid lineupWitValid).2 (by decide)).1 "A" (by decide)

/-! ## Claim C8: scenario C of the consecutive-assignment validator -/

/-- Claim C8.  On the candidate with `Pitcher = ["A","A","B","A","B","B"]`
the validator reports A's innings 1, 2, 4 and B's innings 3, 5, 6, in that
order, with 1-based comma-separated inning numbers. -/
theorem scenarioC_consecutive_messages :
    validateConsecutivePositionAssignments [("Pitcher", ["A", "A", "B", "A", "B", "B"])]
      "Pitcher" =
    ["A played Pitcher in non-consecutive innings: 1, 2, 4",
     "B played Pitcher in non-consecutive innings: 3, 5, 6"] := by
  decide

/-! ## Claim C10: attendance toggling clears the lineup, roster edits keep it -/

/-- Claim C10.  `togglePlayerAttendance` empties the generated lineup and
flips the player's effective attendance; `addPlayer`, `removePlayer` and
`updatePlayerName` leave the generated lineup untouched. -/
theorem attendance_toggle_frame (st : AppState) (player oldName newName addName : String) :
    (togglePlayerAttendance st player).generatedLineups = [] ∧
    isPlayerAttending (togglePlayerAttendance st player) player =
      ! isPlayerAttending st player ∧
    (addPlayer st addName).1.generatedLineups = st.generatedLineups ∧
    (removePlayer st player).generatedLineups = st.generatedLineups ∧
    (updatePlayerName st oldName newName).1.generatedLineups = st.generatedLineups := by
  refine ⟨rfl, ?_, ?_, ?_, ?_⟩
  · cases hcur : alookup st.playerAttendance player with
    | none =>
      simp [togglePlayerAttendance, clearGeneratedLineups, isPlayerAttending, hcur,
        alookup_objSet_self]
    | some b =>
      simp [togglePlayerAttendance, clearGeneratedLineups, isPlayerAttending, hcur,
        alookup_objSet_self]
  · unfold addPlayer
    split <;> rfl
  · unfold removePlayer removeFromBattingOrder
    split <;> rfl
  · unfold updatePlayerName
    split
    · split <;> rfl
    · rfl

/-! ## Claim C4: the fair sitting generator -/

theorem sitRun_succ (st : AppState) (k : Nat) :
    sitRun st (k + 1) =
      ⟨(sitRun st k).sel ++ [sitSelect st (sitRun st k).counts],
        bumpCounts (sitRun st k).counts (sitSelect st (sitRun st k).counts)⟩ := by
  unfold sitRun
  rw [List.range_succ, List.foldl_append, List.foldl_cons, List.foldl_nil]

theorem sitChecked_succ (st : AppState) (k : Nat) :
    sitChecked st (k + 1) = (sitChecked st k).bind (sitStep st) := by
  unfold sitChecked
  rw [List.range_succ, List.foldl_append, List.foldl_cons, List.foldl_nil]

theorem sitChecked_eq_some (st : AppState) :
    ∀ k, (∀ i, i < k → ¬ sitShortAt st i) → sitChecked st k = some (sitRun st k) := by
  intro k
  induction k with
  | zero => intro _; rfl
  | succ k ih =>
    intro h
    rw [sitChecked_succ, ih (fun i hi => h i (Nat.lt_succ_of_lt hi)), Option.some_bind]
    unfold sitStep
    have hk : ¬ ((sitEligible st (sitRun st k).counts).length < sittingPerInning st) :=
      h k (Nat.lt_succ_self k)
    rw [if_neg hk, sitRun_succ]

theorem sitChecked_eq_none (st : AppState) :
    ∀ k, (∃ i, i < k ∧ sitShortAt st i) → sitChecked st k = none := by
  intro k
  induction k with
  | zero => rintro ⟨i, hi, _⟩; omega
  | succ k ih =>
    rintro ⟨i, hi, hshort⟩
    rw [sitChecked_succ]
    by_cases hk : ∃ j, j < k ∧ sitShortAt st j
    · rw [ih hk]
      rfl
    · have hik : i = k := by
        by_contra hne
        exact hk ⟨i, by omega, hshort⟩
      rw [sitChecked_eq_some st k (fun j hj hs => hk ⟨j, hj, hs⟩), Option.some_bind]
      unfold sitStep
      have hsk : (sitEligible st (sitRun st k).counts).length < sittingPerInning st :=
        hik ▸ hshort
      rw [if_pos hsk]

theorem sitEligible_length (st : AppState) (counts : String → Nat) :
    (sitEligible st counts).length =
      ((getAttendingPlayers st).filter
        (fun p => counts p < sitMaxPerPlayer st)).length := by
  unfold sitEligible
  exact ((List.perm_insertionSort (sitLE counts (sitTarget st))
    (getAttendingPlayers st)).filter _).length_eq

theorem sitShortage_iff (st : AppState) :
    sitShortage st ↔ ∃ i, i < INNING_COUNT ∧ sitShortAt st i := by
  unfold sitShortage sitShortAt
  constructor
  · rintro ⟨i, hi, h⟩
    exact ⟨i, hi, by rwa [sitEligible_length]⟩
  · rintro ⟨i, hi, h⟩
    exact ⟨i, hi, by rwa [sitEligible_length] at h⟩

theorem sitNeed_subset_eligible (st : AppState) (counts : String → Nat) :
    ∀ p ∈ sitNeed st counts, p ∈ sitEligible st counts := by
  intro p hp
  exact (List.mem_filter.mp hp).1

theorem sitSelect_subset_eligible (st : AppState) (counts : String → Nat) :
    ∀ p ∈ sitSelect st counts, p ∈ sitEligible st counts := by
  intro p hp
  rcases List.mem_append.mp hp with hp | hp
  · exact sitNeed_subset_eligible st counts p (List.mem_of_mem_take hp)
  · exact (List.mem_filter.mp (List.mem_of_mem_take hp)).1

theorem sitEligible_counts_lt (st : AppState) (counts : String → Nat) :
    ∀ p ∈ sitEligible st counts, counts p < sitMaxPerPlayer st := by
  intro p hp
  have := (List.mem_filter.mp hp).2
  simpa using this

theorem sitSelect_length (st : AppState) (counts : String → Nat)
    (h : sittingPerInning st ≤ (sitEligible st counts).length) :
    (sitSelect st counts).length = sittingPerInning st := by
  unfold sitSelect
  rw [List.length_append, List.length_take, List.length_take]
  by_cases hn : sittingPerInning st ≤ (sitNeed st counts).length
  · have h1 : min (min (sitNeed st counts).length (sittingPerInning st))
        (sitNeed st counts).length = sittingPerInning st := by omega
    rw [h1]
    omega
  · push_neg at hn
    have h1 : min (min (sitNeed st counts).length (sittingPerInning st))
        (sitNeed st counts).length = (sitNeed st counts).length := by omega
    rw [h1]
    have htk : (sitNeed st counts).take
        (min (sitNeed st counts).length (sittingPerInning st)) = sitNeed st counts := by
      rw [show min (sitNeed st counts).length (sittingPerInning st) =
        (sitNeed st counts).length by omega]
      exact List.take_length _
    rw [htk]
    have hmemiff : ∀ x ∈ sitEligible st counts,
        (x ∈ sitNeed st counts ↔ counts x < sitTarget st) := by
      intro x hx
      constructor
      · intro hmem
        simpa using (List.mem_filter.mp hmem).2
      · intro hlt
        exact List.mem_filter.mpr ⟨hx, by simpa using hlt⟩
    have hfc : (sitEligible st counts).filter
        (fun p => ¬ (sitNeed st counts).contains p) =
        (sitEligible st counts).filter (fun p => ¬ counts p < sitTarget st) := by
      apply List.filter_congr
      intro x hx
      by_cases hcx : counts x < sitTarget st <;>
        simp [List.contains, List.elem_eq_mem, hcx, hmemiff x hx]
    rw [hfc]
    have hsplit : ((sitEligible st counts).filter
          (fun p => counts p < sitTarget st)).length +
        ((sitEligible st counts).filter
          (fun p => ¬ counts p < sitTarget st)).length =
        (sitEligible st counts).length := by
      rw [← List.countP_eq_length_filter, ← List.countP_eq_length_filter]
      rw [List.length_eq_countP_add_countP (fun p => decide (counts p < sitTarget st))]
      congr 1
      apply List.countP_congr
      intro x _
      by_cases hx : counts x < sitTarget st <;> simp [hx]
    have hneed : (sitNeed st counts).length =
        ((sitEligible st counts).filter (fun p => counts p < sitTarget st)).length := rfl
    omega

theorem bumpCounts_eq (sel : List String) :
    ∀ (counts : String → Nat) (p : String), sel.Nodup →
      bumpCounts counts sel p = counts p + (if p ∈ sel then 1 else 0) := by
  induction sel with
  | nil => intro counts p _; simp [bumpCounts]
  | cons b t ih =>
    intro counts p hnd
    have hnd' := List.nodup_cons.mp hnd
    show bumpCounts (fun q => if q = b then counts b + 1 else counts q) t p = _
    rw [ih _ p hnd'.2]
    by_cases hpb : p = b
    · subst hpb
      have : p ∉ t := hnd'.1
      simp [this]
    · simp [hpb]

theorem sitSelect_nodup (st : AppState) (counts : String → Nat)
    (hnd : (getAttendingPlayers st).Nodup) : (sitSelect st counts).Nodup := by
  have hsort : (List.insertionSort (sitLE counts (sitTarget st))
      (getAttendingPlayers st)).Nodup :=
    (List.perm_insertionSort _ _).nodup_iff.mpr hnd
  have helig : (sitEligible st counts).Nodup := hsort.filter _
  have hneed : (sitNeed st counts).Nodup := helig.filter _
  unfold sitSelect
  refine List.Nodup.append ?_ ?_ ?_
  · exact hneed.sublist (List.take_sublist _ _)
  · exact (helig.filter _).sublist (List.take_sublist _ _)
  · intro x hx1 hx2
    have := List.mem_of_mem_take hx2
    have hnotin := (List.mem_filter.mp this).2
    simp only [List.contains, List.elem_eq_mem] at hnotin
    simp at hnotin
    exact hnotin hx1

theorem sitRun_counts_le (st : AppState) (hnd : (getAttendingPlayers st).Nodup) :
    ∀ k p, (sitRun st k).counts p ≤ sitMaxPerPlayer st := by
  intro k
  induction k with
  | zero =>
    intro p
    show 0 ≤ sitMaxPerPlayer st
    exact Nat.zero_le _
  | succ k ih =>
    intro p
    rw [sitRun_succ]
    show bumpCounts (sitRun st k).counts (sitSelect st (sitRun st k).counts) p ≤ _
    rw [bumpCounts_eq _ _ p (sitSelect_nodup st _ hnd)]
    by_cases hp : p ∈ sitSelect st (sitRun st k).counts
    · have hlt := sitEligible_counts_lt st _ p (sitSelect_subset_eligible st _ p hp)
      simp only [hp, if_true]
      omega
    · simp only [hp, if_false]
      exact ih p

theorem sitRun_counts_countP (st : AppState) (hnd : (getAttendingPlayers st).Nodup) :
    ∀ k p, (sitRun st k).counts p =
      (sitRun st k).sel.countP (fun l => p ∈ l) := by
  intro k
  induction k with
  | zero => intro p; rfl
  | succ k ih =>
    intro p
    rw [sitRun_succ]
    show bumpCounts (sitRun st k).counts (sitSelect st (sitRun st k).counts) p =
      ((sitRun st k).sel ++ [sitSelect st (sitRun st k).counts]).countP (fun l => p ∈ l)
    rw [bumpCounts_eq _ _ p (sitSelect_nodup st _ hnd), ih p, List.countP_append]
    simp [List.countP_cons]

theorem sitRun_sel_length (st : AppState) : ∀ k, (sitRun st k).sel.length = k := by
  intro k
  induction k with
  | zero => rfl
  | succ k ih =>
    rw [sitRun_succ]
    show ((sitRun st k).sel ++ [sitSelect st (sitRun st k).counts]).length = k + 1
    rw [List.length_append, ih]
    rfl

theorem sitRun_sel_getD (st : AppState) :
    ∀ k i, i < k → (sitRun st k).sel.getD i [] = sitSelect st (sitRun st i).counts := by
  intro k
  induction k with
  | zero => intro i hi; omega
  | succ k ih =>
    intro i hi
    rw [sitRun_succ]
    show ((sitRun st k).sel ++ [sitSelect st (sitRun st k).counts]).getD i [] = _
    by_cases hik : i < k
    · rw [List.getD_append _ _ _ _ (by rw [sitRun_sel_length]; exact hik)]
      exact ih i hik
    · have : i = k := by omega
      subst this
      rw [List.getD_eq_getElem?_getD, List.getElem?_append_right
        (by rw [sitRun_sel_length])]
      rw [sitRun_sel_length]
      simp

/-- Claim C4.  The fair sitting generator returns failure exactly when (a)
some inning finds fewer than `sittingPerInning` players below the
per-player max, or (b) the final max-minus-min spread of sitting counts
exceeds one; on success every inning's list has exactly `sittingPerInning`
players, each player sits at most `target + 1` innings in total (for
duplicate-free rosters, counted as list membership), and each inning's
selection takes the below-target players first. -/
theorem fair_sitting_spec (st : AppState) :
    (generateFairSittingAssignment st = none ↔ sitShortage st ∨ sitUnfairSpread st) ∧
    (∀ sa, generateFairSittingAssignment st = some sa →
      sa.length = INNING_COUNT ∧
      (∀ l ∈ sa, l.length = sittingPerInning st) ∧
      ((getAttendingPlayers st).Nodup →
        ∀ p, sa.countP (fun l => p ∈ l) ≤ sitMaxPerPlayer st) ∧
      (∀ i, i < INNING_COUNT →
        ((sitNeed st (sitRun st i).counts).length ≤ sittingPerInning st →
          ∀ p ∈ sitNeed st (sitRun st i).counts, p ∈ sa.getD i []) ∧
        (sittingPerInning st ≤ (sitNeed st (sitRun st i).counts).length →
          ∀ p ∈ sa.getD i [], (sitRun st i).counts p < sitTarget st))) := by
  constructor
  · unfold generateFairSittingAssignment
    by_cases hshort : ∃ i, i < INNING_COUNT ∧ sitShortAt st i
    · rw [sitChecked_eq_none st INNING_COUNT hshort, Option.none_bind]
      constructor
      · intro _
        exact Or.inl ((sitShortage_iff st).mpr hshort)
      · intro _
        rfl
    · push_neg at hshort
      rw [sitChecked_eq_some st INNING_COUNT (fun i hi => hshort i hi), Option.some_bind]
      by_cases hspread :
          1 < natSpread ((getAttendingPlayers st).map (sitRun st INNING_COUNT).counts)
      · rw [if_pos hspread]
        constructor
        · intro _
          exact Or.inr hspread
        · intro _
          rfl
      · rw [if_neg hspread]
        constructor
        · intro h
          exact absurd h (by simp)
        · rintro (h | h)
          · obtain ⟨i, hi, hs⟩ := (sitShortage_iff st).mp h
            exact absurd hs (hshort i hi)
          · exact absurd h hspread
  · intro sa hsa
    unfold generateFairSittingAssignment at hsa
    by_cases hshort : ∃ i, i < INNING_COUNT ∧ sitShortAt st i
    · rw [sitChecked_eq_none st INNING_COUNT hshort, Option.none_bind] at hsa
      exact absurd hsa (by simp)
    · push_neg at hshort
      rw [sitChecked_eq_some st INNING_COUNT (fun i hi => hshort i hi),
        Option.some_bind] at hsa
      by_cases hspread :
          1 < natSpread ((getAttendingPlayers st).map (sitRun st INNING_COUNT).counts)
      · rw [if_pos hspread] at hsa
        exact absurd hsa (by simp)
      · rw [if_neg hspread] at hsa
        have hsel : sa = (sitRun st INNING_COUNT).sel := (Option.some.inj hsa).symm
        subst hsel
        have hlen := sitRun_sel_length st INNING_COUNT
        refine ⟨hlen, ?_, ?_, ?_⟩
        · intro l hl
          obtain ⟨i, hi, hil⟩ := List.mem_iff_getElem.mp hl
          have hi6 : i < INNING_COUNT := by omega
          have hd : (sitRun st INNING_COUNT).sel.getD i [] = l := by
            rw [List.getD_eq_getElem _ _ hi]
            exact hil
          rw [← hd, sitRun_sel_getD st INNING_COUNT i hi6]
          exact sitSelect_length st _ (Nat.le_of_not_lt (hshort i hi6))
        · intro hnd p
          rw [← sitRun_counts_countP st hnd INNING_COUNT p]
          exact sitRun_counts_le st hnd INNING_COUNT p
        · intro i hi6
          rw [sitRun_sel_getD st INNING_COUNT i hi6]
          constructor
          · intro hle p hp
            unfold sitSelect
            have hmin : min (sitNeed st (sitRun st i).counts).length (sittingPerInning st) =
                (sitNeed st (sitRun st i).counts).length := by omega
            rw [hmin, List.take_length _]
            exact List.mem_append_left _ hp
          · intro hge p hp
            unfold sitSelect at hp
            simp only [] at hp
            have hmin : min (sitNeed st (sitRun st i).counts).length (sittingPerInning st) =
                sittingPerInning st := by omega
            rw [hmin] at hp
            have hlen1 : ((sitNeed st (sitRun st i).counts).take
                (sittingPerInning st)).length = sittingPerInning st := by
              rw [List.length_take]
              omega
            rw [hlen1, Nat.sub_self, List.take_zero, List.append_nil] at hp
            have hpn : p ∈ sitNeed st (sitRun st i).counts := List.mem_of_mem_take hp
            simpa using (List.mem_filter.mp hpn).2

/-- Witness for C4: on the ten-player all-attending state the sitting
generator succeeds (one sitter per inning, the first six players in roster
order), and the theorem bounds Ann's total number of sitting innings. -/
theorem fair_sitting_spec_witness :
    ([["Ann"], ["Ben"], ["Cal"], ["Dan"], ["Eve"], ["Fay"]].countP
      (fun l => "Ann" ∈ l)) ≤ sitMaxPerPlayer stWit10 :=
  (((fair_sitting_spec stWit10).2 [["Ann"], ["Ben"], ["Cal"], ["Dan"], ["Eve"], ["Fay"]]
    (by decide)).2.2.1 (by decide)) "Ann"

/-! ## Claims C2 and C9: the generation orchestrator -/

theorem orchLoop_fallback (st : AppState) (R : Nat → Nat → Nat)
    (hfail : ∀ n, (generateFairSittingAssignment st).bind
      (fun sa => generateLineupsWithSittingAssignment st sa (R n)) = none) :
    ∀ fuel bestScore, orchLoop st R fuel bestScore [] =
      objAssign st.generatedLineups (generateSimpleLineups st (R 1000)) := by
  intro fuel
  induction fuel with
  | zero => intro bestScore; rfl
  | succ fuel ih =>
    intro bestScore
    show (match generateFairSittingAssignment st with
      | none => orchLoop st R fuel bestScore []
      | some sa =>
        match generateLineupsWithSittingAssignment st sa (R (1000 - (fuel + 1))) with
        | none => orchLoop st R fuel bestScore []
        | some lineups =>
          let validation := validateLineup st lineups
          if validation.isValid then objAssign st.generatedLineups lineups
          else
            let score : Int := -(validation.errors.length : Int)
            if bestScore < score then orchLoop st R fuel score lineups
            else orchLoop st R fuel bestScore []) =
      objAssign st.generatedLineups (generateSimpleLineups st (R 1000))
    split
    · exact ih bestScore
    · next sa hsa =>
      split
      · exact ih bestScore
      · next lineups hlin =>
        exfalso
        have hn := hfail (1000 - (fuel + 1))
        rw [hsa] at hn
        simp only [Option.some_bind] at hn
        rw [hlin] at hn
        exact absurd hn (by simp)

theorem orchLoop_keys (st : AppState) (R : Nat → Nat → Nat) :
    ∀ fuel bestScore best k, k ∈ objKeys st.generatedLineups →
      k ∈ objKeys (orchLoop st R fuel bestScore best) := by
  intro fuel
  induction fuel with
  | zero =>
    intro bestScore best k hk
    show k ∈ objKeys (if best.isEmpty then
      objAssign st.generatedLineups (generateSimpleLineups st (R 1000))
      else objAssign st.generatedLineups best)
    by_cases hb : best.isEmpty
    · rw [if_pos hb]
      exact mem_objKeys_objAssign _ _ k hk
    · rw [if_neg hb]
      exact mem_objKeys_objAssign _ _ k hk
  | succ fuel ih =>
    intro bestScore best k hk
    show k ∈ objKeys (match generateFairSittingAssignment st with
      | none => orchLoop st R fuel bestScore best
      | some sa =>
        match generateLineupsWithSittingAssignment st sa (R (1000 - (fuel + 1))) with
        | none => orchLoop st R fuel bestScore best
        | some lineups =>
          let validation := validateLineup st lineups
          if validation.isValid then objAssign st.generatedLineups lineups
          else
            let score : Int := -(validation.errors.length : Int)
            if bestScore < score then orchLoop st R fuel score lineups
            else orchLoop st R fuel bestScore best)
    split
    · exact ih bestScore best k hk
    · next sa hsa =>
      split
      · exact ih bestScore best k hk
      · next lineups hlin =>
        show k ∈ objKeys (if (validateLineup st lineups).isValid then
            objAssign st.generatedLineups lineups
          else if bestScore < -((validateLineup st lineups).errors.length : Int) then
            orchLoop st R fuel (-((validateLineup st lineups).errors.length : Int)) lineups
          else orchLoop st R fuel bestScore best)
        by_cases hv : (validateLineup st lineups).isValid
        · rw [if_pos hv]
          exact mem_objKeys_objAssign _ _ k hk
        · rw [if_neg hv]
          by_cases hs : bestScore < -((validateLineup st lineups).errors.length : Int)
          · rw [if_pos hs]
            exact ih _ _ k hk
          · rw [if_neg hs]
            exact ih bestScore best k hk

/-- Amended claim C2.  Every terminal outcome of `generateDefensiveLineups`
writes the new result into `generatedLineups` with `Object.assign`, a merge:
keys of the new result overwrite, but every key already present in the
previous generated lineup is still present afterwards — the previous lineup
is not discarded in full. -/
theorem orchestrator_merges_prior_keys (st : AppState) (R : Nat → Nat → Nat) :
    ∀ k ∈ objKeys st.generatedLineups,
      k ∈ objKeys (generateDefensiveLineups st R) := by
  intro k hk
  exact orchLoop_keys st R 1000 (-1) [] k hk

/-- Witness for the amended C2: the stale key `"X"` survives generation on
`stCex2`. -/
theorem orchestrator_merges_prior_keys_witness :
    "X" ∈ objKeys (generateDefensiveLineups stCex2 (fun _ _ => 0)) :=
  orchestrator_merges_prior_keys stCex2 (fun _ _ => 0) "X" (by decide)

set_option maxRecDepth 8000 in
/-- Counterexample to C2 as stated: on `stCex2` (one incapable player, prior
generated lineup holding the key `"X"`), every one of the 1000 attempts
fails, the fallback lineup is merged via `Object.assign`, and the prior
binding `"X" ↦ ["x"]` survives in full — so the previous lineup is merged,
not replaced. -/
theorem orchestrator_replacement_counterexample :
    alookup (generateDefensiveLineups stCex2 (fun _ _ => 0)) "X" = some ["x"] := by
  have hfail : ∀ n : Nat, (generateFairSittingAssignment stCex2).bind
      (fun sa => generateLineupsWithSittingAssignment stCex2 sa
        ((fun (_ : Nat) (_ : Nat) => 0) n)) = none := by
    intro n
    rw [show generateFairSittingAssignment stCex2 = some [[], [], [], [], [], []] by decide]
    show generateLineupsWithSittingAssignment stCex2 [[], [], [], [], [], []]
      (fun _ => 0) = none
    decide
  have hres := orchLoop_fallback stCex2 (fun _ _ => 0) hfail 1000 (-1)
  unfold generateDefensiveLineups
  rw [hres]
  decide

/-- Claim C9.  The sitting generator is a function of the state alone (it
consumes no randomness), so when it fails once it fails on all 1000 retries
at the same step, for every random source, and the orchestrator necessarily
lands in the simple fallback, never consuming randomness before it. -/
theorem sitting_failure_deterministic (st : AppState)
    (hns : generateFairSittingAssignment st = none) (R : Nat → Nat → Nat) :
    generateDefensiveLineups st R =
      objAssign st.generatedLineups (generateSimpleLineups st (R 1000)) := by
  unfold generateDefensiveLineups
  exact orchLoop_fallback st R (fun n => by rw [hns]; rfl) 1000 (-1)

/-- Witness for C9: on the duplicate-name eleven-player roster the sitting
generator fails (the single distinct name exhausts its per-player maximum in
the first inning), and the orchestrator lands in the fallback for the
constant-zero stream family. -/
theorem sitting_failure_deterministic_witness :
    generateDefensiveLineups stWitDup (fun _ _ => 0) =
      objAssign stWitDup.generatedLineups (generateSimpleLineups stWitDup (fun _ => 0)) :=
  sitting_failure_deterministic stWitDup (by decide) (fun _ _ => 0)

/-! ## Claim C5: decimal keys, injectivity of the sitting-row keys -/

theorem toDigitsCore_shape (b f n : Nat) (ds : List Char) :
    Nat.toDigitsCore b (f + 1) n ds =
      if n / b = 0 then Nat.digitChar (n % b) :: ds
      else Nat.toDigitsCore b f (n / b) (Nat.digitChar (n % b) :: ds) := by
  simp only [Nat.toDigitsCore]

theorem toDigitsCore_append (b : Nat) :
    ∀ (fuel n : Nat) (ds : List Char),
      Nat.toDigitsCore b fuel n ds = Nat.toDigitsCore b fuel n [] ++ ds := by
  intro fuel
  induction fuel with
  | zero => intro n ds; rfl
  | succ f ih =>
    intro n ds
    rw [toDigitsCore_shape, toDigitsCore_shape]
    by_cases h : n / b = 0
    · rw [if_pos h, if_pos h]
      rfl
    · rw [if_neg h, if_neg h, ih (n / b) (Nat.digitChar (n % b) :: ds),
        ih (n / b) [Nat.digitChar (n % b)], List.append_assoc]
      rfl

theorem digitChar_toNat (d : Nat) (hd : d < 10) : (Nat.digitChar d).toNat = 48 + d := by
  interval_cases d <;> rfl

theorem digitsVal_concat (xs : List Char) (c : Char) :
    digitsVal (xs ++ [c]) = 10 * digitsVal xs + (c.toNat - 48) := by
  unfold digitsVal
  rw [List.foldl_append]
  rfl

theorem digitsVal_toDigitsCore :
    ∀ n f : Nat, n < f → digitsVal (Nat.toDigitsCore 10 f n []) = n := by
  intro n
  induction n using Nat.strong_induction_on with
  | _ n ih =>
    intro f hf
    obtain ⟨g, rfl⟩ : ∃ g, f = g + 1 := ⟨f - 1, by omega⟩
    rw [toDigitsCore_shape]
    have hm : n % 10 < 10 := Nat.mod_lt _ (by omega)
    have hdm := Nat.div_add_mod n 10
    by_cases h : n / 10 = 0
    · rw [if_pos h]
      show 10 * 0 + ((Nat.digitChar (n % 10)).toNat - 48) = n
      rw [digitChar_toNat _ hm]
      omega
    · rw [if_neg h, toDigitsCore_append, digitsVal_concat, digitChar_toNat _ hm]
      have h10 : 10 ≤ n := by
        by_contra hlt
        exact h (Nat.div_eq_of_lt (by omega))
      have hdl : n / 10 < n := Nat.div_lt_self (by omega) (by omega)
      rw [ih (n / 10) hdl g (by omega)]
      omega

theorem nat_repr_inj {m n : Nat} (h : Nat.repr m = Nat.repr n) : m = n := by
  have hd : Nat.toDigitsCore 10 (m + 1) m [] = Nat.toDigitsCore 10 (n + 1) n [] :=
    congrArg String.data h
  have h1 := digitsVal_toDigitsCore m (m + 1) (Nat.lt_succ_self m)
  have h2 := digitsVal_toDigitsCore n (n + 1) (Nat.lt_succ_self n)
  rw [← h1, ← h2, hd]

theorem toString_nat (n : Nat) : toString n = Nat.repr n := rfl

theorem sitKeyN_inj {a b : Nat} (h : sitKeyN a = sitKeyN b) : a = b := by
  have hd := congrArg String.data h
  rw [show sitKeyN a = "Sitting " ++ toString (a + 1) from rfl,
    show sitKeyN b = "Sitting " ++ toString (b + 1) from rfl,
    append_sitting_data, append_sitting_data] at hd
  injection hd with h1 hd; injection hd with h2 hd; injection hd with h3 hd
  injection hd with h4 hd; injection hd with h5 hd; injection hd with h6 hd
  injection hd with h7 hd; injection hd with h8 hd
  have hs : toString (a + 1) = toString (b + 1) := String.ext hd
  rw [toString_nat, toString_nat] at hs
  have := nat_repr_inj hs
  omega

theorem sitKeyN_ne_position (j : Nat) : ∀ pos ∈ POSITIONS, sitKeyN j ≠ pos :=
  sittingKey_ne_position (toString (j + 1))

/-! ## Claim C5: generic key-map lemmas -/

theorem alookup_eq_none {α : Type} (B : List (String × α)) (k : String)
    (h : ∀ kv ∈ B, kv.1 ≠ k) : alookup B k = none := by
  induction B with
  | nil => rfl
  | cons a t ih =>
    rw [alookup_cons, if_neg (h a (List.mem_cons_self a t))]
    exact ih (fun kv hm => h kv (List.mem_cons_of_mem a hm))

theorem any_key_false {α : Type} (B : List (String × α)) (k : String)
    (h : ∀ kv ∈ B, kv.1 ≠ k) : B.any (fun kv => kv.1 == k) = false := by
  rw [List.any_eq_false]
  intro kv hm
  simpa using h kv hm

theorem alookup_append_right {α : Type} (A B : List (String × α)) (k : String)
    (h : ∀ kv ∈ A, kv.1 ≠ k) : alookup (A ++ B) k = alookup B k := by
  induction A with
  | nil => rfl
  | cons a t ih =>
    rw [List.cons_append, alookup_cons, if_neg (h a (List.mem_cons_self a t))]
    exact ih (fun kv hm => h kv (List.mem_cons_of_mem a hm))

theorem objSet_append_right {α : Type} (A B : List (String × α)) (k : String) (v : α)
    (h : ∀ kv ∈ A, kv.1 ≠ k) : objSet (A ++ B) k v = A ++ objSet B k v := by
  unfold objSet
  rw [List.any_append, any_key_false A k h, Bool.false_or]
  by_cases hB : B.any (fun kv => kv.1 == k) = true
  · rw [if_pos hB, if_pos hB, List.map_append]
    have hmap : A.map (fun kv => if kv.1 == k then (k, v) else kv) = A.map id := by
      apply List.map_congr_left
      intro kv hm
      simp only [id]
      rw [if_neg (by simpa using h kv hm)]
    rw [hmap, List.map_id]
  · rw [if_neg hB, if_neg hB, List.append_assoc]

theorem objPush_append_right (A B : List (String × List String)) (k x : String)
    (h : ∀ kv ∈ A, kv.1 ≠ k) : objPush (A ++ B) k x = A ++ objPush B k x := by
  unfold objPush
  rw [alookup_append_right A B k h, objSet_append_right A B k _ h]

theorem alookup_natKeyMap {α : Type} (keyf : Nat → String)
    (hinj : ∀ a b : Nat, keyf a = keyf b → a = b) (val : Nat → α) :
    ∀ (l : List Nat) (m : Nat), m ∈ l →
      alookup (l.map (fun j => (keyf j, val j))) (keyf m) = some (val m) := by
  intro l
  induction l with
  | nil => intro m hm; cases hm
  | cons a t ih =>
    intro m hm
    rw [List.map_cons, alookup_cons]
    by_cases ha : keyf a = keyf m
    · rw [if_pos ha, hinj a m ha]
    · rw [if_neg ha]
      rcases List.mem_cons.mp hm with rfl | hm'
      · exact absurd rfl ha
      · exact ih m hm'

theorem objSet_natKeyMap {α : Type} (keyf : Nat → String)
    (hinj : ∀ a b : Nat, keyf a = keyf b → a = b) (val : Nat → α)
    (l : List Nat) (m : Nat) (v : α) (hm : m ∈ l) :
    objSet (l.map (fun j => (keyf j, val j))) (keyf m) v
      = l.map (fun j => (keyf j, if j = m then v else val j)) := by
  unfold objSet
  have hany : (l.map (fun j => (keyf j, val j))).any (fun kv => kv.1 == keyf m) = true := by
    rw [List.any_eq_true]
    exact ⟨(keyf m, val m), List.mem_map.mpr ⟨m, hm, rfl⟩, by simp⟩
  rw [if_pos hany, List.map_map]
  apply List.map_congr_left
  intro j _
  simp only [Function.comp_apply]
  by_cases hjm : j = m
  · subst hjm
    simp
  · rw [if_neg (show ¬ ((keyf j, val j).1 == keyf m) = true by
      simp only [beq_iff_eq]
      exact fun he => hjm (hinj j m he)), if_neg hjm]

theorem alookup_strMap (f : String → List String) :
    ∀ (l : List String) (a : String), a ∈ l →
      alookup (l.map (fun q => (q, f q))) a = some (f a) := by
  intro l
  induction l with
  | nil => intro a ha; cases ha
  | cons q t ih =>
    intro a ha
    rw [List.map_cons, alookup_cons]
    by_cases hqa : q = a
    · subst hqa
      rw [if_pos rfl]
    · rw [if_neg hqa]
      rcases List.mem_cons.mp ha with rfl | ha'
      · exact absurd rfl hqa
      · exact ih a ha'

theorem objSet_strMap (f : String → List String) (v : List String) :
    ∀ (l : List String) (a : String), a ∈ l →
      objSet (l.map (fun q => (q, f q))) a v
        = l.map (fun q => (q, if q = a then v else f q)) := by
  intro l a ha
  unfold objSet
  have hany : (l.map (fun q => (q, f q))).any (fun kv => kv.1 == a) = true := by
    rw [List.any_eq_true]
    exact ⟨(a, f a), List.mem_map.mpr ⟨a, ha, rfl⟩, by simp⟩
  rw [if_pos hany, List.map_map]
  apply List.map_congr_left
  intro q _
  simp only [Function.comp_apply]
  by_cases hqa : q = a
  · subst hqa
    simp
  · rw [if_neg (show ¬ ((q, f q).1 == a) = true by simpa using hqa), if_neg hqa]

theorem objPush_strMap (f : String → List String) (x : String)
    (l : List String) (a : String) (ha : a ∈ l) :
    objPush (l.map (fun q => (q, f q))) a x
      = l.map (fun q => (q, if q = a then f a ++ [x] else f q)) := by
  unfold objPush
  rw [alookup_strMap f l a ha, Option.getD_some, objSet_strMap f (f a ++ [x]) l a ha]

theorem getD_map_range {α : Type} (g : Nat → α) (n i : Nat) (hi : i < n) (d : α) :
    ((List.range n).map g).getD i d = g i := by
  have hlen : i < ((List.range n).map g).length := by
    rw [List.length_map, List.length_range]
    exact hi
  rw [List.getD_eq_getElem _ _ hlen, List.getElem_map, List.getElem_range]

theorem map_range_getD (l : List String) (n : Nat) (h : l.length = n) :
    (List.range n).map (fun j => l.getD j "") = l := by
  subst h
  apply List.ext_getElem
  · rw [List.length_map, List.length_range]
  · intro i h1 h2
    rw [List.getElem_map, List.getElem_range]
    exact List.getD_eq_getElem l "" h2

theorem positions_nodup : POSITIONS.Nodup := by decide

/-! ## Claim C5: structure of the nine-position fill -/

theorem assignPos_spec (st : AppState) (r : Nat → Nat) (inning : Nat) (s : GenS)
    (pos : String) (s' : GenS)
    (h : assignPos st r inning s pos = some s') :
    ∃ x, x ∈ s.avail ∧ s'.L = objPush s.L pos x ∧ s'.avail = s.avail.erase x := by
  simp only [assignPos] at h
  by_cases he : (s.avail.filter (fun p =>
      canPlayerPlayPositionInSpecificInning st p pos inning s.stats s.L)).isEmpty
  · rw [if_pos he] at h
    exact absurd h (by simp)
  · rw [if_neg he] at h
    set elig := s.avail.filter (fun p =>
      canPlayerPlayPositionInSpecificInning st p pos inning s.stats s.L) with helig
    have hne : elig ≠ [] := by
      intro h0
      rw [h0] at he
      exact he rfl
    have hmem : elig.getD (r s.idx % elig.length) "" ∈ elig := getD_mod_mem hne _ _
    have hmem2 := List.mem_filter.mp (helig ▸ hmem)
    have hs := (Option.some.inj h).symm
    subst hs
    exact ⟨elig.getD (r s.idx % elig.length) "", hmem2.1, rfl, rfl⟩

theorem posFold_none (st : AppState) (r : Nat → Nat) (inning : Nat) :
    ∀ ps : List String,
      ps.foldl (fun acc position => acc.bind (fun s => assignPos st r inning s position))
        none = none := by
  intro ps
  induction ps with
  | nil => rfl
  | cons a t ih =>
    rw [List.foldl_cons]
    exact ih

theorem posFold_struct (st : AppState) (r : Nat → Nat) (inning : Nat) :
    ∀ (ps : List String), ps.Nodup → (∀ q ∈ ps, q ∈ POSITIONS) →
      ∀ (s s' : GenS) (f : String → List String),
        s.L = POSITIONS.map (fun q => (q, f q)) →
        ps.foldl (fun acc position => acc.bind (fun u => assignPos st r inning u position))
          (some s) = some s' →
        ∃ (f' : String → List String) (xs : List String),
          s'.L = POSITIONS.map (fun q => (q, f' q)) ∧
          xs.length = ps.length ∧
          (∀ q, q ∉ ps → f' q = f q) ∧
          (∀ j, j < ps.length → f' (ps.getD j "") = f (ps.getD j "") ++ [xs.getD j ""]) ∧
          (s'.avail ++ xs).Perm s.avail ∧
          (∀ x ∈ xs, x ∈ s.avail) := by
  intro ps
  induction ps with
  | nil =>
    intro _ _ s s' f hL h
    have hs := Option.some.inj h
    subst hs
    exact ⟨f, [], hL, rfl, fun q _ => rfl, fun j hj => absurd hj (by simp),
      by simp, fun x hx => absurd hx (by simp)⟩
  | cons a t ih =>
    intro hnd hsub s s' f hL h
    rw [List.foldl_cons, Option.some_bind] at h
    cases h1 : assignPos st r inning s a with
    | none =>
      rw [h1, posFold_none] at h
      exact absurd h (by simp)
    | some s1 =>
      rw [h1] at h
      obtain ⟨xa, hxa_mem, hs1L, hs1av⟩ := assignPos_spec st r inning s a s1 h1
      have haP : a ∈ POSITIONS := hsub a (List.mem_cons_self a t)
      have hnd' := List.nodup_cons.mp hnd
      have hL1 : s1.L = POSITIONS.map (fun q => (q, if q = a then f a ++ [xa] else f q)) := by
        rw [hs1L, hL, objPush_strMap f xa POSITIONS a haP]
      obtain ⟨f', xs, hf'L, hxslen, hf'out, hf'rows, hperm, hxmem⟩ :=
        ih hnd'.2 (fun q hq => hsub q (List.mem_cons_of_mem a hq)) s1 s'
          (fun q => if q = a then f a ++ [xa] else f q) hL1 h
      refine ⟨f', xa :: xs, hf'L, by simp [hxslen], ?_, ?_, ?_, ?_⟩
      · intro q hq
        have hq1 : q ∉ t := fun hx => hq (List.mem_cons_of_mem a hx)
        have hq2 : q ≠ a := fun hx => hq (hx ▸ List.mem_cons_self a t)
        rw [hf'out q hq1, if_neg hq2]
      · intro j hj
        cases j with
        | zero =>
          show f' a = f a ++ [xa]
          rw [hf'out a hnd'.1, if_pos rfl]
        | succ j' =>
          have hj' : j' < t.length := by
            simp only [List.length_cons] at hj
            omega
          show f' (t.getD j' "") = f (t.getD j' "") ++ [xs.getD j' ""]
          have hrow := hf'rows j' hj'
          have htj : t.getD j' "" ∈ t := by
            rw [List.getD_eq_getElem t "" hj']
            exact List.getElem_mem hj'
          have hne2 : t.getD j' "" ≠ a := fun hx => hnd'.1 (hx ▸ htj)
          rw [hrow, if_neg hne2]
      · have h1p : (s'.avail ++ (xa :: xs)).Perm (xa :: (s'.avail ++ xs)) :=
          List.perm_middle
        have h2p : (xa :: (s'.avail ++ xs)).Perm (xa :: s1.avail) := hperm.cons xa
        have h3p : (xa :: s1.avail).Perm s.avail := by
          rw [hs1av]
          exact (List.perm_cons_erase hxa_mem).symm
        exact (h1p.trans h2p).trans h3p
      · intro x hx
        rcases List.mem_cons.mp hx with rfl | hx'
        · exact hxa_mem
        · have hxm := hxmem x hx'
          rw [hs1av] at hxm
          exact List.erase_subset _ _ hxm

theorem posGenInning_struct (st : AppState) (r : Nat → Nat) (sit : List String)
    (inning : Nat) (g g' : GenP) (f : String → List String)
    (hL : g.L = POSITIONS.map (fun q => (q, f q)))
    (hlen : ∀ q ∈ POSITIONS, (f q).length = inning)
    (h : posGenInning st r sit inning g = some g') :
    ∃ f' : String → List String,
      g'.L = POSITIONS.map (fun q => (q, f' q)) ∧
      (∀ q ∈ POSITIONS, (f' q).length = inning + 1) ∧
      (∀ q ∈ POSITIONS, ∀ j, j < inning → (f' q).getD j "" = (f q).getD j "") ∧
      9 ≤ ((getAttendingPlayers st).filter (fun p => ¬ sit.contains p)).length ∧
      (((getAttendingPlayers st).filter (fun p => ¬ sit.contains p)).length = 9 →
        (POSITIONS.map (fun q => (f' q).getD inning "")).Perm
          ((getAttendingPlayers st).filter (fun p => ¬ sit.contains p))) := by
  simp only [posGenInning] at h
  obtain ⟨s', hfold, hg'⟩ := Option.map_eq_some'.mp h
  obtain ⟨f', xs, hf'L, hxslen, hf'out, hf'rows, hperm, hxmem⟩ :=
    posFold_struct st r inning POSITIONS positions_nodup (fun q hq => hq)
      ⟨g.L, g.stats, (getAttendingPlayers st).filter (fun p => ¬ sit.contains p), g.idx⟩
      s' f hL hfold
  have hg'L : g'.L = s'.L := by
    rw [← hg']
  have hrowq : ∀ q ∈ POSITIONS, ∃ j, j < POSITIONS.length ∧
      f' q = f q ++ [xs.getD j ""] := by
    intro q hq
    obtain ⟨j, hj, hjq⟩ := List.mem_iff_getElem.mp hq
    have hrow := hf'rows j hj
    rw [List.getD_eq_getElem POSITIONS "" hj, hjq] at hrow
    exact ⟨j, hj, hrow⟩
  have hxs9 : xs.length = 9 := hxslen
  have hperm' : (s'.avail ++ xs).Perm
      ((getAttendingPlayers st).filter (fun p => ¬ sit.contains p)) := hperm
  have hlen_eq := hperm'.length_eq
  rw [List.length_append, hxs9] at hlen_eq
  refine ⟨f', by rw [hg'L, hf'L], ?_, ?_, by omega, ?_⟩
  · intro q hq
    obtain ⟨j, _, hx⟩ := hrowq q hq
    rw [hx, List.length_append, hlen q hq]
    rfl
  · intro q hq j hj
    obtain ⟨j', _, hx⟩ := hrowq q hq
    rw [hx]
    exact List.getD_append _ _ _ _ (by rw [hlen q hq]; exact hj)
  · intro h9
    have hnil : s'.avail = [] := List.eq_nil_of_length_eq_zero (by omega)
    have hxsperm : xs.Perm
        ((getAttendingPlayers st).filter (fun p => ¬ sit.contains p)) := by
      have hp2 := hperm'
      rw [hnil, List.nil_append] at hp2
      exact hp2
    have hmapeq : POSITIONS.map (fun q => (f' q).getD inning "") = xs := by
      apply List.ext_getElem
      · rw [List.length_map]
        exact hxslen.symm
      · intro i h1 h2
        rw [List.getElem_map]
        have hiP : i < POSITIONS.length := by simpa using h1
        have hq : POSITIONS[i] ∈ POSITIONS := List.getElem_mem hiP
        have hrow := hf'rows i hiP
        rw [List.getD_eq_getElem POSITIONS "" hiP] at hrow
        rw [hrow]
        have hflen : (f POSITIONS[i]).length = inning := hlen _ hq
        rw [List.getD_append_right _ _ _ _ (by rw [hflen]), hflen, Nat.sub_self]
        show xs.getD i "" = xs[i]
        exact List.getD_eq_getElem xs "" h2
    rw [hmapeq]
    exact hxsperm

theorem posGenCore_struct (st : AppState) (sa : List (List String)) (r : Nat → Nat) :
    ∀ (k : Nat) (g : GenP),
      (List.range k).foldl (fun acc i => acc.bind (posGenInning st r (sa.getD i []) i))
        (some ⟨posInit, statsInit st, 0⟩) = some g →
      ∃ f : String → List String,
        g.L = POSITIONS.map (fun q => (q, f q)) ∧
        (∀ q ∈ POSITIONS, (f q).length = k) ∧
        (∀ i, i < k → 9 ≤ (availAt st sa i).length ∧
          ((availAt st sa i).length = 9 →
            (POSITIONS.map (fun q => (f q).getD i "")).Perm (availAt st sa i))) := by
  intro k
  induction k with
  | zero =>
    intro g h
    have hg := Option.some.inj h
    refine ⟨fun _ => [], ?_, fun q _ => rfl, fun i hi => absurd hi (by omega)⟩
    rw [← hg]
    rfl
  | succ k ih =>
    intro g h
    rw [List.range_succ, List.foldl_append, List.foldl_cons, List.foldl_nil] at h
    cases hmid : (List.range k).foldl
        (fun acc i => acc.bind (posGenInning st r (sa.getD i []) i))
        (some ⟨posInit, statsInit st, 0⟩) with
    | none =>
      rw [hmid] at h
      exact absurd h (by simp)
    | some gk =>
      rw [hmid, Option.some_bind] at h
      obtain ⟨f, hfL, hflen, hfinn⟩ := ih gk hmid
      obtain ⟨f', hf'L, hf'len, hf'stable, h9le, h9perm⟩ :=
        posGenInning_struct st r (sa.getD k []) k gk g f hfL hflen h
      refine ⟨f', hf'L, hf'len, ?_⟩
      intro i hi
      by_cases hik : i < k
      · obtain ⟨ha, hb⟩ := hfinn i hik
        refine ⟨ha, fun h9 => ?_⟩
        have hmc : POSITIONS.map (fun q => (f' q).getD i "") =
            POSITIONS.map (fun q => (f q).getD i "") :=
          List.map_congr_left (fun q hq => hf'stable q hq i hik)
        rw [hmc]
        exact hb h9
      · have hik' : i = k := by omega
        subst hik'
        exact ⟨h9le, h9perm⟩

/-! ## Claim C5: structure of the appended sitting rows -/

theorem sitFold_fresh :
    ∀ (l : List String) (n : Nat) (B : List (String × List String)),
      (∀ kv ∈ B, ∀ j : Nat, n ≤ j → kv.1 ≠ sitKeyN j) →
      (List.enumFrom n l).foldl
        (fun Lx e => objPush Lx ("Sitting " ++ toString (e.1 + 1)) e.2) B
      = B ++ (List.enumFrom n l).map (fun e => (sitKeyN e.1, [e.2])) := by
  intro l
  induction l with
  | nil =>
    intro n B _
    simp
  | cons a t ih =>
    intro n B hB
    rw [show List.enumFrom n (a :: t) = (n, a) :: List.enumFrom (n + 1) t from rfl,
      List.foldl_cons]
    have hpush : objPush B ("Sitting " ++ toString (n + 1)) a
        = B ++ [(sitKeyN n, [a])] := by
      show objPush B (sitKeyN n) a = B ++ [(sitKeyN n, [a])]
      unfold objPush
      rw [alookup_eq_none B (sitKeyN n) (fun kv hm => hB kv hm n le_rfl)]
      unfold objSet
      rw [any_key_false B (sitKeyN n) (fun kv hm => hB kv hm n le_rfl)]
      simp
    have hB' : ∀ kv ∈ B ++ [(sitKeyN n, [a])], ∀ j : Nat, n + 1 ≤ j →
        kv.1 ≠ sitKeyN j := by
      intro kv hm j hj
      rcases List.mem_append.mp hm with hm1 | hm2
      · exact hB kv hm1 j (by omega)
      · have hkv : kv = (sitKeyN n, [a]) := by simpa using hm2
        rw [hkv]
        intro he
        have := sitKeyN_inj he
        omega
    rw [hpush, ih (n + 1) (B ++ [(sitKeyN n, [a])]) hB', List.append_assoc]
    rfl

theorem enumFrom_map_key :
    ∀ (l : List String) (n : Nat),
      (List.enumFrom n l).map (fun e => (sitKeyN e.1, [e.2]))
        = (List.range l.length).map (fun jj => (sitKeyN (n + jj), [l.getD jj ""])) := by
  intro l
  induction l with
  | nil => intro n; rfl
  | cons a t ih =>
    intro n
    rw [show List.enumFrom n (a :: t) = (n, a) :: List.enumFrom (n + 1) t from rfl,
      List.map_cons, ih (n + 1)]
    rw [show (a :: t).length = t.length + 1 from rfl, List.range_succ_eq_map,
      List.map_cons, List.map_map]
    congr 1
    apply List.map_congr_left
    intro jj _
    simp only [Function.comp_apply]
    have hidx : n + Nat.succ jj = n + 1 + jj := by omega
    rw [hidx]
    rfl

theorem sitFold_update (A : List (String × List String))
    (hA : ∀ kv ∈ A, kv.1 ∈ POSITIONS) (spi : Nat) :
    ∀ (l : List String) (n : Nat) (row : Nat → List String), n + l.length ≤ spi →
      (List.enumFrom n l).foldl
        (fun Lx e => objPush Lx ("Sitting " ++ toString (e.1 + 1)) e.2)
        (A ++ (List.range spi).map (fun jj => (sitKeyN jj, row jj)))
      = A ++ (List.range spi).map (fun jj =>
          (sitKeyN jj,
            if n ≤ jj ∧ jj < n + l.length then row jj ++ [l.getD (jj - n) ""]
            else row jj)) := by
  intro l
  induction l with
  | nil =>
    intro n row _
    rw [show List.enumFrom n ([] : List String) = [] from rfl, List.foldl_nil]
    congr 1
    apply List.map_congr_left
    intro jj _
    rw [if_neg (by simp)]
  | cons a t ih =>
    intro n row h
    rw [show List.enumFrom n (a :: t) = (n, a) :: List.enumFrom (n + 1) t from rfl,
      List.foldl_cons]
    have hnspi : n < spi := by
      simp only [List.length_cons] at h
      omega
    have hApos : ∀ kv ∈ A, kv.1 ≠ sitKeyN n :=
      fun kv hm he => sitKeyN_ne_position n kv.1 (hA kv hm) he.symm
    have hstep : objPush (A ++ (List.range spi).map (fun jj => (sitKeyN jj, row jj)))
        ("Sitting " ++ toString (n + 1)) a
        = A ++ (List.range spi).map (fun jj =>
            (sitKeyN jj, if jj = n then row n ++ [a] else row jj)) := by
      show objPush (A ++ (List.range spi).map (fun jj => (sitKeyN jj, row jj)))
        (sitKeyN n) a = _
      rw [objPush_append_right _ _ _ _ hApos]
      congr 1
      unfold objPush
      rw [alookup_natKeyMap sitKeyN (fun x y hxy => sitKeyN_inj hxy) row
        (List.range spi) n (List.mem_range.mpr hnspi), Option.getD_some,
        objSet_natKeyMap sitKeyN (fun x y hxy => sitKeyN_inj hxy) row
        (List.range spi) n (row n ++ [a]) (List.mem_range.mpr hnspi)]
    rw [hstep, ih (n + 1) (fun jj => if jj = n then row n ++ [a] else row jj) (by
      simp only [List.length_cons] at h
      omega)]
    congr 1
    apply List.map_congr_left
    intro jj _
    simp only [List.length_cons]
    by_cases h1 : jj = n
    · subst h1
      rw [if_neg (show ¬ (jj + 1 ≤ jj ∧ jj < jj + 1 + t.length) by omega),
        if_pos rfl, if_pos (show jj ≤ jj ∧ jj < jj + (t.length + 1) by omega),
        Nat.sub_self]
      rfl
    · by_cases h2 : n + 1 ≤ jj ∧ jj < n + 1 + t.length
      · rw [if_pos h2, if_neg h1,
          if_pos (show n ≤ jj ∧ jj < n + (t.length + 1) by omega)]
        have hidx : jj - n = (jj - (n + 1)) + 1 := by omega
        rw [hidx]
        rfl
      · rw [if_neg h2, if_neg h1,
          if_neg (show ¬ (n ≤ jj ∧ jj < n + (t.length + 1)) by omega)]

theorem addSitFold_run (st : AppState) (sa : List (List String))
    (A : List (String × List String)) (hA : ∀ kv ∈ A, kv.1 ∈ POSITIONS)
    (hsalen : ∀ i, i < INNING_COUNT → (sa.getD i []).length = sittingPerInning st) :
    ∀ k, k ≤ INNING_COUNT →
      (List.range k).foldl (fun L0 i =>
        let sittingThisInning := sa.getD i []
        let L1 := sittingThisInning.enum.foldl
          (fun Lx e => objPush Lx ("Sitting " ++ toString (e.1 + 1)) e.2) L0
        let sittingSlots := (getAttendingPlayers st).length - 9
        (List.range' sittingThisInning.length
            (sittingSlots - sittingThisInning.length)).foldl
          (fun Lx j => objPush Lx ("Sitting " ++ toString (j + 1)) "") L1) A
      = A ++ sitRowsAcc sa (sittingPerInning st) k := by
  intro k
  induction k with
  | zero =>
    intro _
    simp [sitRowsAcc]
  | succ k ih =>
    intro hk
    rw [List.range_succ, List.foldl_append, List.foldl_cons, List.foldl_nil,
      ih (by omega)]
    have hk6 : k < INNING_COUNT := by omega
    have hlenk : (sa.getD k []).length = sittingPerInning st := hsalen k hk6
    show (List.range' (sa.getD k []).length
        ((getAttendingPlayers st).length - 9 - (sa.getD k []).length)).foldl
        (fun Lx j => objPush Lx ("Sitting " ++ toString (j + 1)) "")
        ((sa.getD k []).enum.foldl
          (fun Lx e => objPush Lx ("Sitting " ++ toString (e.1 + 1)) e.2)
          (A ++ sitRowsAcc sa (sittingPerInning st) k))
      = A ++ sitRowsAcc sa (sittingPerInning st) (k + 1)
    have hpad : (getAttendingPlayers st).length - 9 - (sa.getD k []).length = 0 := by
      have hl2 : (sa.getD k []).length = (getAttendingPlayers st).length - 9 := hlenk
      omega
    rw [hpad, List.range'_zero, List.foldl_nil,
      show (sa.getD k []).enum = List.enumFrom 0 (sa.getD k []) from rfl]
    by_cases hk0 : k = 0
    · subst hk0
      rw [show sitRowsAcc sa (sittingPerInning st) 0 = [] from rfl, List.append_nil,
        sitFold_fresh (sa.getD 0 []) 0 A
          (fun kv hm j _ he => sitKeyN_ne_position j kv.1 (hA kv hm) he.symm)]
      congr 1
      rw [enumFrom_map_key (sa.getD 0 []) 0, hlenk]
      show (List.range (sittingPerInning st)).map
          (fun jj => (sitKeyN (0 + jj), [(sa.getD 0 []).getD jj ""]))
        = sitRowsAcc sa (sittingPerInning st) 1
      rw [show sitRowsAcc sa (sittingPerInning st) 1
        = (List.range (sittingPerInning st)).map (fun jj =>
            (sitKeyN jj, (List.range 1).map (fun i => (sa.getD i []).getD jj "")))
        from rfl]
      apply List.map_congr_left
      intro jj _
      rw [Nat.zero_add]
      rfl
    · obtain ⟨k', rfl⟩ : ∃ k', k = k' + 1 := ⟨k - 1, by omega⟩
      rw [show sitRowsAcc sa (sittingPerInning st) (k' + 1)
        = (List.range (sittingPerInning st)).map (fun jj =>
            (sitKeyN jj, (List.range (k' + 1)).map (fun i => (sa.getD i []).getD jj "")))
        from rfl]
      rw [sitFold_update A hA (sittingPerInning st) (sa.getD (k' + 1) []) 0
        (fun jj => (List.range (k' + 1)).map (fun i => (sa.getD i []).getD jj ""))
        (by omega)]
      rw [show sitRowsAcc sa (sittingPerInning st) (k' + 1 + 1)
        = (List.range (sittingPerInning st)).map (fun jj =>
            (sitKeyN jj,
              (List.range (k' + 1 + 1)).map (fun i => (sa.getD i []).getD jj "")))
        from rfl]
      congr 1
      apply List.map_congr_left
      intro jj hjj
      have hjjspi : jj < sittingPerInning st := List.mem_range.mp hjj
      rw [if_pos (show 0 ≤ jj ∧ jj < 0 + (sa.getD (k' + 1) []).length by omega)]
      have hrow : (List.range (k' + 1 + 1)).map (fun i => (sa.getD i []).getD jj "")
          = (List.range (k' + 1)).map (fun i => (sa.getD i []).getD jj "")
            ++ [(sa.getD (k' + 1) []).getD jj ""] := by
        rw [List.range_succ, List.map_append]
        rfl
      rw [hrow]
      rfl

theorem addSittingRows_struct (st : AppState) (sa : List (List String))
    (A : List (String × List String)) (hA : ∀ kv ∈ A, kv.1 ∈ POSITIONS)
    (hsalen : ∀ i, i < INNING_COUNT → (sa.getD i []).length = sittingPerInning st) :
    addSittingRows st sa A = A ++ sitRowsAcc sa (sittingPerInning st) INNING_COUNT :=
  addSitFold_run st sa A hA hsalen INNING_COUNT le_rfl

/-! ## Claim C5: the partition invariant -/

theorem gfsa_some_elim (st : AppState) (sa : List (List String))
    (h : generateFairSittingAssignment st = some sa) :
    sa = (sitRun st INNING_COUNT).sel ∧ ∀ i, i < INNING_COUNT → ¬ sitShortAt st i := by
  unfold generateFairSittingAssignment at h
  by_cases hshort : ∃ i, i < INNING_COUNT ∧ sitShortAt st i
  · rw [sitChecked_eq_none st INNING_COUNT hshort, Option.none_bind] at h
    exact absurd h (by simp)
  · push_neg at hshort
    rw [sitChecked_eq_some st INNING_COUNT (fun i hi => hshort i hi),
      Option.some_bind] at h
    by_cases hspread :
        1 < natSpread ((getAttendingPlayers st).map (sitRun st INNING_COUNT).counts)
    · rw [if_pos hspread] at h
      exact absurd h (by simp)
    · rw [if_neg hspread] at h
      exact ⟨(Option.some.inj h).symm, fun i hi => hshort i hi⟩

theorem sitEligible_subset_attending (st : AppState) (counts : String → Nat) :
    ∀ p ∈ sitEligible st counts, p ∈ getAttendingPlayers st := by
  intro p hp
  have h1 := (List.mem_filter.mp hp).1
  exact (List.perm_insertionSort (sitLE counts (sitTarget st))
    (getAttendingPlayers st)).mem_iff.mp h1

theorem gfsa_inning_props (st : AppState) (sa : List (List String))
    (hnd : (getAttendingPlayers st).Nodup)
    (h : generateFairSittingAssignment st = some sa) :
    ∀ i, i < INNING_COUNT →
      (sa.getD i []).length = sittingPerInning st ∧
      (sa.getD i []).Nodup ∧
      (∀ p ∈ sa.getD i [], p ∈ getAttendingPlayers st) := by
  obtain ⟨hsel, hshort⟩ := gfsa_some_elim st sa h
  intro i hi
  have hgd : sa.getD i [] = sitSelect st (sitRun st i).counts := by
    rw [hsel]
    exact sitRun_sel_getD st INNING_COUNT i hi
  rw [hgd]
  refine ⟨?_, sitSelect_nodup st _ hnd, ?_⟩
  · exact sitSelect_length st _ (Nat.le_of_not_lt (hshort i hi))
  · intro p hp
    exact sitEligible_subset_attending st _ p (sitSelect_subset_eligible st _ p hp)

theorem attending_split_perm (st : AppState) (s : List String)
    (hnd : (getAttendingPlayers st).Nodup) (hsnd : s.Nodup)
    (hsub : ∀ p ∈ s, p ∈ getAttendingPlayers st) :
    ((getAttendingPlayers st).filter (fun p => ¬ s.contains p) ++ s).Perm
      (getAttendingPlayers st) := by
  have h1 : ((getAttendingPlayers st).filter (fun p => s.contains p)).Perm s := by
    apply (List.perm_ext_iff_of_nodup (hnd.filter _) hsnd).mpr
    intro a
    simp only [List.mem_filter, List.contains, List.elem_eq_mem, decide_eq_true_eq]
    constructor
    · intro ha
      exact ha.2
    · intro ha
      exact ⟨hsub a ha, ha⟩
  have h4 : (getAttendingPlayers st).filter (fun p => ¬ s.contains p) =
      (getAttendingPlayers st).filter (fun x => !(s.contains x)) := by
    apply List.filter_congr
    intro x _
    simp
  have h2 : ((getAttendingPlayers st).filter (fun p => s.contains p) ++
      (getAttendingPlayers st).filter (fun p => ¬ s.contains p)).Perm
      (getAttendingPlayers st) := by
    rw [h4]
    exact List.filter_append_perm (fun p => s.contains p) (getAttendingPlayers st)
  exact ((List.Perm.append_left _ h1.symm).trans List.perm_append_comm).trans h2

/-- Claim C5.  For every lineup the sitting-aware generator returns
successfully (with its sitting assignment coming, as in the program, from a
successful run of the fair sitting generator, and for the claim's intended
data model: duplicate-free, non-blank roster names), every inning's
non-empty entries across the nine position rows and all `"Sitting k"` rows
are a permutation of the attending-player list — no attending player is
omitted and no player appears twice. -/
theorem partition_invariant (st : AppState) (sa : List (List String)) (r : Nat → Nat)
    (L : List (String × List String))
    (hnd : st.roster.Nodup) (hblank : "" ∉ st.roster)
    (hsa : generateFairSittingAssignment st = some sa)
    (hgen : generateLineupsWithSittingAssignment st sa r = some L) :
    ∀ i, i < INNING_COUNT →
      (inningEntries L i).Perm (getAttendingPlayers st) ∧
      (inningEntries L i).Nodup := by
  have hattnd : (getAttendingPlayers st).Nodup := hnd.filter _
  have hattne : ∀ p ∈ getAttendingPlayers st, p ≠ "" := by
    intro p hp hpe
    exact hblank (hpe ▸ (List.mem_filter.mp hp).1)
  have hsaprops := gfsa_inning_props st sa hattnd hsa
  have hsalen : ∀ i, i < INNING_COUNT → (sa.getD i []).length = sittingPerInning st :=
    fun i hi => (hsaprops i hi).1
  unfold generateLineupsWithSittingAssignment at hgen
  obtain ⟨g, hcore, hL⟩ := Option.map_eq_some'.mp hgen
  obtain ⟨f, hfL, hflen, hfinn⟩ := posGenCore_struct st sa r INNING_COUNT g hcore
  have hmapA : ∀ kv ∈ POSITIONS.map (fun q => (q, f q)), kv.1 ∈ POSITIONS := by
    intro kv hm
    obtain ⟨q, hq, hqe⟩ := List.mem_map.mp hm
    rw [← hqe]
    exact hq
  have hLform : L = POSITIONS.map (fun q => (q, f q)) ++
      sitRowsAcc sa (sittingPerInning st) INNING_COUNT := by
    rw [← hL, hfL, addSittingRows_struct st sa _ hmapA hsalen]
  intro i hi
  obtain ⟨h9le, h9perm⟩ := hfinn i hi
  have hsplit : ((availAt st sa i) ++ sa.getD i []).Perm (getAttendingPlayers st) :=
    attending_split_perm st (sa.getD i []) hattnd (hsaprops i hi).2.1
      (hsaprops i hi).2.2
  have hlen9 : (availAt st sa i).length = 9 := by
    have hlens := hsplit.length_eq
    rw [List.length_append] at hlens
    have hsl := hsalen i hi
    have hspi : sittingPerInning st = (getAttendingPlayers st).length - 9 := rfl
    omega
  have hXperm : (POSITIONS.map (fun q => (f q).getD i "")).Perm (availAt st sa i) :=
    h9perm hlen9
  have hA2 : (POSITIONS.map (fun q => (q, f q))).map (fun kv => kv.2.getD i "")
      = POSITIONS.map (fun q => (f q).getD i "") := by
    rw [List.map_map]
    rfl
  have hS2 : (sitRowsAcc sa (sittingPerInning st) INNING_COUNT).map
      (fun kv => kv.2.getD i "") = sa.getD i [] := by
    rw [show sitRowsAcc sa (sittingPerInning st) INNING_COUNT
      = (List.range (sittingPerInning st)).map (fun jj =>
          (sitKeyN jj, (List.range INNING_COUNT).map
            (fun i2 => (sa.getD i2 []).getD jj ""))) from rfl]
    rw [List.map_map]
    have hg : ((fun kv : String × List String => kv.2.getD i "") ∘ (fun jj =>
        (sitKeyN jj, (List.range INNING_COUNT).map
          (fun i2 => (sa.getD i2 []).getD jj ""))))
        = fun jj => (sa.getD i []).getD jj "" := by
      funext jj
      show ((List.range INNING_COUNT).map
        (fun i2 => (sa.getD i2 []).getD jj "")).getD i "" = (sa.getD i []).getD jj ""
      rw [getD_map_range (fun i2 => (sa.getD i2 []).getD jj "") INNING_COUNT i hi]
    rw [hg, map_range_getD (sa.getD i []) (sittingPerInning st) (hsalen i hi)]
  have hentries : inningEntries L i =
      ((POSITIONS.map (fun q => (f q).getD i "")).filter (fun p => p ≠ "")) ++
      ((sa.getD i []).filter (fun p => p ≠ "")) := by
    unfold inningEntries
    rw [hLform, List.map_append, hA2, hS2, List.filter_append]
  have hall : ∀ p ∈ availAt st sa i, decide (p ≠ "") = true := by
    intro p hp
    have hp' : p ∈ (getAttendingPlayers st).filter
        (fun x => ¬ (sa.getD i []).contains x) := hp
    have hm : p ∈ getAttendingPlayers st := (List.mem_filter.mp hp').1
    simpa using hattne p hm
  have hfilterX : ((POSITIONS.map (fun q => (f q).getD i "")).filter
      (fun p => p ≠ "")).Perm (availAt st sa i) := by
    have h1 := hXperm.filter (fun p => p ≠ "")
    rw [List.filter_eq_self.mpr hall] at h1
    exact h1
  have hfilterS : (sa.getD i []).filter (fun p => p ≠ "") = sa.getD i [] := by
    apply List.filter_eq_self.mpr
    intro p hp
    simpa using hattne p ((hsaprops i hi).2.2 p hp)
  have hperm : (inningEntries L i).Perm (getAttendingPlayers st) := by
    rw [hentries, hfilterS]
    exact (hfilterX.append (List.Perm.refl _)).trans hsplit
  exact ⟨hperm, hperm.nodup_iff.mpr hattnd⟩

/-- Witness for C5: on the nine-player full-capability state with the empty
sitting assignment, the generator returns `lineupWit9` and the first
inning's entries are a permutation of the attending players. -/
theorem partition_invariant_witness :
    (inningEntries lineupWit9 0).Perm (getAttendingPlayers stWit9) :=
  (partition_invariant stWit9 saEmpty6 (fun _ => 0) lineupWit9 (by decide) (by decide)
    (by decide) (by decide) 0 (by decide)).1

end LLT
